import Mathlib

/-!
Verification development for the opencode-kimicode-auth plugin
(account-pool storage, OAuth token refresh, and the resilient dispatch
retry loop of `src/plugin.ts`, `src/plugin/storage.ts`, `src/plugin/token.ts`).

JavaScript objects and `Map`s are modelled as association lists in
insertion order; `Map.set` updates in place, object spread puts the
left object's keys first with right-hand values winning on shared keys.
-/

namespace Kimicode

/-- JS "first defined wins" on optional values (left operand wins). -/
def jsOr {α : Type} (i e : Option α) : Option α :=
  match i with
  | some v => some v
  | none => e

@[simp]
theorem jsOr_some {α : Type} (v : α) (e : Option α) : jsOr (some v) e = some v := rfl

@[simp]
theorem jsOr_none {α : Type} (e : Option α) : jsOr none e = e := rfl

@[simp]
theorem jsOr_none_right {α : Type} (i : Option α) : jsOr i none = i := by
  cases i <;> rfl

@[simp]
theorem lookup_cons {α : Type} (k : String) (p : String × α) (rest : List (String × α)) :
    List.lookup k (p :: rest) = if k = p.1 then some p.2 else List.lookup k rest := by
  by_cases h : k = p.1
  · simp [List.lookup, h]
  · have hb : (k == p.1) = false := beq_eq_false_iff_ne.mpr h
    simp [List.lookup, hb, h]

/-- JS `Map.prototype.set`: update the entry in place when the key is
already present (keeping insertion order), otherwise append. -/
def jsSet {α : Type} (m : List (String × α)) (k : String) (v : α) : List (String × α) :=
  if (m.lookup k).isSome then
    m.map (fun p => if p.1 = k then (k, v) else p)
  else
    m ++ [(k, v)]

theorem lookup_append {α : Type} (m₁ m₂ : List (String × α)) (k : String) :
    (m₁ ++ m₂).lookup k = jsOr (m₁.lookup k) (m₂.lookup k) := by
  induction m₁ with
  | nil => simp
  | cons p rest ih =>
    by_cases h : k = p.1
    · simp [h]
    · simp only [List.cons_append, lookup_cons, if_neg h]
      exact ih

theorem lookup_map_update {α : Type} (m : List (String × α)) (k : String) (v : α) :
    (m.map (fun p => if p.1 = k then (k, v) else p)).lookup k =
      if (m.lookup k).isSome then some v else none := by
  induction m with
  | nil => simp
  | cons p rest ih =>
    by_cases h : p.1 = k
    · simp [List.map, h]
    · have hk : ¬ k = p.1 := fun hh => h hh.symm
      simp only [List.map, if_neg h, lookup_cons, if_neg hk, ih]

theorem lookup_map_update_ne {α : Type} (m : List (String × α)) (k k' : String) (v : α)
    (hne : k' ≠ k) :
    (m.map (fun p => if p.1 = k then (k, v) else p)).lookup k' = m.lookup k' := by
  induction m with
  | nil => simp
  | cons p rest ih =>
    by_cases h : p.1 = k
    · have h2 : ¬ k' = p.1 := by rw [h]; exact hne
      simp only [List.map, if_pos h, lookup_cons, if_neg hne, if_neg h2, ih]
    · by_cases h2 : k' = p.1
      · simp only [List.map, if_neg h, lookup_cons, if_pos h2]
      · simp only [List.map, if_neg h, lookup_cons, if_neg h2, ih]

@[simp]
theorem lookup_jsSet_self {α : Type} (m : List (String × α)) (k : String) (v : α) :
    (jsSet m k v).lookup k = some v := by
  unfold jsSet
  by_cases h : (m.lookup k).isSome
  · rw [if_pos h, lookup_map_update, if_pos h]
  · rw [if_neg h, lookup_append]
    have : m.lookup k = none := Option.not_isSome_iff_eq_none.mp h
    simp [this]

theorem lookup_jsSet_ne {α : Type} (m : List (String × α)) (k k' : String) (v : α)
    (hne : k' ≠ k) : (jsSet m k v).lookup k' = m.lookup k' := by
  unfold jsSet
  by_cases h : (m.lookup k).isSome
  · rw [if_pos h, lookup_map_update_ne _ _ _ _ hne]
  · rw [if_neg h, lookup_append]
    simp [hne]

/-- JS object spread of two numeric-valued records: keys of the first
in order (values overridden by the second when present), then the new
keys of the second. -/
def objUnion (a b : List (String × Nat)) : List (String × Nat) :=
  a.map (fun p => (p.1, ((b.lookup p.1).getD p.2))) ++
    b.filter (fun p => (a.lookup p.1).isNone)

theorem lookup_filter_isNone {α : Type} (b a : List (String × α)) (k : String)
    (hk : (a.lookup k).isNone) :
    (b.filter (fun p => (a.lookup p.1).isNone)).lookup k = b.lookup k := by
  induction b with
  | nil => simp
  | cons p rest ih =>
    by_cases h : k = p.1
    · subst h
      simp only [List.filter, hk]
      simp [ih]
    · by_cases h2 : (List.lookup p.1 a).isNone
      · simp only [List.filter, h2, lookup_cons, if_neg h]
        exact ih
      · simp only [List.filter, h2]
        simp only [Bool.false_eq_true, if_false, lookup_cons, if_neg h]
        exact ih

theorem lookup_map_getD {α : Type} (a b : List (String × α)) (k : String) (v : α)
    (ha : a.lookup k = some v) :
    (a.map (fun p => (p.1, ((b.lookup p.1).getD p.2)))).lookup k =
      some ((b.lookup k).getD v) := by
  induction a with
  | nil => simp at ha
  | cons p rest ih =>
    by_cases h : k = p.1
    · subst h
      rw [lookup_cons, if_pos rfl] at ha
      cases ha
      simp [List.map]
    · rw [lookup_cons, if_neg h] at ha
      simp only [List.map, lookup_cons, if_neg h]
      exact ih ha

theorem lookup_map_getD_none {α : Type} (a b : List (String × α)) (k : String)
    (ha : a.lookup k = none) :
    (a.map (fun p => (p.1, ((b.lookup p.1).getD p.2)))).lookup k = none := by
  induction a with
  | nil => simp
  | cons p rest ih =>
    by_cases h : k = p.1
    · subst h
      rw [lookup_cons, if_pos rfl] at ha
      cases ha
    · rw [lookup_cons, if_neg h] at ha
      simp only [List.map, lookup_cons, if_neg h]
      exact ih ha

/-- Spread union agrees with "incoming wins, else existing" lookup. -/
theorem lookup_objUnion (a b : List (String × Nat)) (k : String) :
    (objUnion a b).lookup k = jsOr (b.lookup k) (a.lookup k) := by
  unfold objUnion
  rw [lookup_append]
  cases ha : a.lookup k with
  | some v =>
    rw [lookup_map_getD a b k v ha]
    cases hb : b.lookup k <;> simp
  | none =>
    rw [lookup_map_getD_none a b k ha]
    rw [lookup_filter_isNone b a k (by simp [ha])]
    cases hb : b.lookup k <;> simp

/-! ## Storage data model (`src/plugin/storage.ts`) -/

/-- `CooldownReason` from storage.ts. -/
inductive CooldownReason
  | authFailure
  | networkError
  | projectError
  | validationRequired
deriving DecidableEq

/-- `AccountMetadata` from storage.ts. Optional TS fields are `Option`;
the optional `rateLimitResetTimes` object is an association list
(absent field behaves as the empty object under spread, modelled `[]`).
Numeric fields supplied as `undefined` in a JSON file are coerced by the
code's `|| 0` guards, modelled by defaulting them to `0` at parse time. -/
structure MAccount where
  email : Option String
  refreshToken : String
  addedAt : Nat
  lastUsed : Nat
  enabled : Option Bool
  rateLimitResetTimes : List (String × Nat)
  coolingDownUntil : Option Nat
  cooldownReason : Option CooldownReason
deriving DecidableEq

/-- `AccountStorage` from storage.ts (`activeIndexByFamily` reduced to its
only key, `kimi`). -/
structure MStorage where
  version : Nat
  accounts : List MAccount
  activeIndex : Int
  activeIndexByFamily : Option Int
deriving DecidableEq

/-- Per-account merge from `mergeAccountStorage` (storage.ts):
`{...existingAcc, ...acc, rateLimitResetTimes: {...existingAcc.rateLimitResetTimes,
...acc.rateLimitResetTimes}, lastUsed: Math.max(existingAcc.lastUsed || 0, acc.lastUsed || 0)}`. -/
def mergeAccount (existingAcc acc : MAccount) : MAccount :=
  { email := jsOr acc.email existingAcc.email
    refreshToken := acc.refreshToken
    addedAt := acc.addedAt
    lastUsed := max existingAcc.lastUsed acc.lastUsed
    enabled := jsOr acc.enabled existingAcc.enabled
    rateLimitResetTimes := objUnion existingAcc.rateLimitResetTimes acc.rateLimitResetTimes
    coolingDownUntil := jsOr acc.coolingDownUntil existingAcc.coolingDownUntil
    cooldownReason := jsOr acc.cooldownReason existingAcc.cooldownReason }

/-- One loop iteration of `mergeAccountStorage`: skip accounts with a falsy
(empty) `refreshToken`, otherwise `accountMap.set(acc.refreshToken, f m acc)`.
The first loop over `existing.accounts` uses `f m acc = acc`; the second,
over `incoming.accounts`, merges with the already-stored entry if any. -/
def accPoolStep (f : List (String × MAccount) → MAccount → MAccount)
    (m : List (String × MAccount)) (acc : MAccount) : List (String × MAccount) :=
  if acc.refreshToken = "" then m else jsSet m acc.refreshToken (f m acc)

/-- `mergeAccountStorage` from storage.ts. -/
def mergeAccountStorage (existing incoming : MStorage) : MStorage :=
  let m1 := existing.accounts.foldl (accPoolStep (fun _ acc => acc)) []
  let m2 := incoming.accounts.foldl
    (accPoolStep (fun m acc =>
      match m.lookup acc.refreshToken with
      | some existingAcc => mergeAccount existingAcc acc
      | none => acc)) m1
  { version := 1
    accounts := m2.map Prod.snd
    activeIndex := incoming.activeIndex
    activeIndexByFamily := incoming.activeIndexByFamily }

/-- `isNewer` from `deduplicateAccountsByEmail` (storage.ts):
`currLastUsed > existLastUsed || (currLastUsed === existLastUsed && currAddedAt > existAddedAt)`. -/
def newerAcc (curr exist : MAccount) : Bool :=
  decide (exist.lastUsed < curr.lastUsed ∨
    (curr.lastUsed = exist.lastUsed ∧ exist.addedAt < curr.addedAt))

/-- JS falsiness of the optional `email` field, as tested by
`if (!acc.email)` in storage.ts line 396: a missing email and the empty
string are both falsy, and such entries are kept unconditionally. -/
def emailFalsy : Option String → Bool
  | none => true
  | some s => decide (s = "")

/-- The first loop of `deduplicateAccountsByEmail`, building
`emailToNewestIndex` over the enumerated account list (falsy-email
entries — missing or empty-string email — are kept unconditionally and
tracked separately). -/
def dedupPass (accounts : List MAccount) :
    List (Nat × MAccount) → List (String × Nat) → List (String × Nat)
  | [], m => m
  | (i, a) :: rest, m =>
    match a.email with
    | none => dedupPass accounts rest m
    | some e =>
      if e = "" then dedupPass accounts rest m
      else
        match m.lookup e with
        | none => dedupPass accounts rest (jsSet m e i)
        | some j =>
          match accounts[j]? with
          | none => dedupPass accounts rest (jsSet m e i)
          | some exist =>
            if newerAcc a exist then dedupPass accounts rest (jsSet m e i)
            else dedupPass accounts rest m

/-- `deduplicateAccountsByEmail` from storage.ts: keep all falsy-email
entries plus, per nonempty email, the index stored in
`emailToNewestIndex`, preserving original order. -/
def deduplicateAccountsByEmail (accounts : List MAccount) : List MAccount :=
  let m := dedupPass accounts accounts.enum []
  let keepIdx := m.map Prod.snd
  (accounts.enum.filter (fun p => emailFalsy p.2.email || keepIdx.contains p.1)).map Prod.snd

/-- A raw entry of the parsed `accounts` array in `loadAccounts`:
either a valid object with a string `refreshToken`, or anything else
(dropped by the validity filter). -/
inductive RawAccount
  | invalid
  | valid (a : MAccount)
deriving DecidableEq

/-- The parsed JSON value that `loadAccounts` post-processes:
`accountsIsArray` models the `Array.isArray(data.accounts)` check,
`version`/`activeIndex` are `none` when absent or not a (finite) number. -/
structure RawStorage where
  accountsIsArray : Bool
  accounts : List RawAccount
  version : Option Int
  activeIndex : Option Int
  activeIndexByFamily : Option Int
deriving DecidableEq

/-- The validity filter of `loadAccounts`. -/
def validEntries (l : List RawAccount) : List MAccount :=
  l.filterMap (fun r => match r with | .invalid => none | .valid a => some a)

/-- `loadAccounts` from storage.ts, post-parse: format/version checks,
validity filter, dedup, and active-index clamping. -/
def loadAccountsModel (raw : RawStorage) : Option MStorage :=
  if !raw.accountsIsArray then none
  else if raw.version ≠ some 1 then none
  else
    let deduplicatedAccounts := deduplicateAccountsByEmail (validEntries raw.accounts)
    let activeIndex0 : Int := raw.activeIndex.getD 0
    let activeIndex : Int :=
      if deduplicatedAccounts.length > 0 then
        max (min activeIndex0 ((deduplicatedAccounts.length : Int) - 1)) 0
      else 0
    some { version := 1
           accounts := deduplicatedAccounts
           activeIndex := activeIndex
           activeIndexByFamily := raw.activeIndexByFamily }

/-! ## Token refresh (`src/plugin/token.ts`) -/

/-- The HTTP response of the refresh endpoint as `refreshAccessToken`
observes it: `ok`, `status`, and the error `code` best-effort parsed
from the body text. -/
structure RefreshHttpResponse where
  ok : Bool
  status : Nat
  errorCode : Option String
deriving DecidableEq

/-- Outcome of the `fetch` call inside `refreshAccessToken`. -/
inductive FetchOutcome
  | threw
  | response (r : RefreshHttpResponse)
deriving DecidableEq

/-- The environment of one `refreshAccessToken` call: whether
`auth.refresh` is set, what the fetch does, and whether the success
payload can be processed (`response.json()` and auth assembly). -/
structure RefreshWorld where
  hasRefreshToken : Bool
  fetch : FetchOutcome
  payloadOk : Bool
deriving DecidableEq

/-- Observable result of `refreshAccessToken`: a thrown
`KimiTokenRefreshError` (with its parsed code and HTTP status),
`undefined`, or the updated auth bundle. -/
inductive RefreshResult
  | threwError (code : Option String) (status : Nat)
  | undefinedResult
  | refreshed
deriving DecidableEq

/-- `refreshAccessToken` from token.ts. A missing refresh token returns
`undefined` before fetching; a thrown fetch or failed payload processing
is swallowed by the outer catch into `undefined`; a non-ok response
always throws `KimiTokenRefreshError` (re-thrown by the outer catch). -/
def refreshAccessTokenModel (w : RefreshWorld) : RefreshResult :=
  if !w.hasRefreshToken then .undefinedResult
  else
    match w.fetch with
    | .threw => .undefinedResult
    | .response r =>
      if !r.ok then .threwError r.errorCode r.status
      else if w.payloadOk then .refreshed
      else .undefinedResult

/-- Terminal classification of a refresh failure, shared by token.ts
line 105 and the two catch sites in plugin.ts:
`code === "invalid_grant" || status === 401 || status === 403`. -/
def isTerminalRefreshErr (code : Option String) (status : Nat) : Bool :=
  decide (code = some "invalid_grant" ∨ status = 401 ∨ status = 403)

/-! ## Dispatcher retry loop (`src/plugin.ts`, `fetch` inside the loader) -/

/-- Account-selection strategy. -/
inductive Strategy
  | sticky
  | roundRobin
  | hybrid
deriving DecidableEq

/-- Observable side effects of one iteration of the retry loop, in
program order. UI toasts and debug logging are not modelled. Indices
name the account acted on. -/
inductive Effect
  | send
  | setEnabled (idx : Nat) (b : Bool)
  | coolDown (idx : Nat) (ms : Nat) (reason : CooldownReason)
  | recordSuccess (idx : Nat)
  | recordFailure (idx : Nat)
  | recordRateLimit (idx : Nat)
  | markRateLimited (idx : Nat)
  | markRequestSuccess (idx : Nat)
  | markUsed (idx : Nat)
  | requestSave
  | consumeToken (idx : Nat)
  | refundToken (idx : Nat)
  | updateAuth (idx : Nat)
  | sleep (ms : Nat)
deriving DecidableEq

/-- Effects that make the account ineligible for (or deprioritised in)
future selection: disabling, cooling down, or marking rate-limited. -/
def Effect.makesIneligible : Effect → Bool
  | .setEnabled _ b => !b
  | .coolDown _ _ _ => true
  | .markRateLimited _ => true
  | _ => false

/-- Per-call mutable state of the retry loop (`capacityRetryCount`,
`attemptedRefreshForAccount`, `lastAccountIndex`). -/
structure CallState where
  capacityRetryCount : Nat
  attemptedRefreshForAccount : Bool
  lastAccountIndex : Option Nat
deriving DecidableEq

/-- The distinguishable errors the loop can throw. -/
inductive ErrorKind
  | aborted
  | allAccountsExhausted
  | terminalAccessDenied
deriving DecidableEq

/-- How one loop iteration ends: return a response (with its status),
throw, or continue with updated per-call state. -/
inductive StepResult
  | ret (status : Nat)
  | thr (e : ErrorKind)
  | cont (st : CallState)
deriving DecidableEq

/-- A caught refresh exception as the dispatcher classifies it. -/
structure KimiRefreshError where
  isKimiTokenRefreshError : Bool
  code : Option String
  status : Nat
deriving DecidableEq

/-- Outcome of a `refreshAccessToken` call made by the dispatcher. -/
inductive RefreshOutcome
  | refreshed
  | noResult
  | threw (e : KimiRefreshError)
deriving DecidableEq

/-- The catch classification in plugin.ts (both refresh sites):
`e instanceof KimiTokenRefreshError && (e.code === "invalid_grant" ||
e.status === 401 || e.status === 403)`. -/
def terminalRefreshThrown (e : KimiRefreshError) : Bool :=
  e.isKimiTokenRefreshError && isTerminalRefreshErr e.code e.status

/-- The parsed error payload of a failed response (`parseErrorInfo`):
its `reason` string and whether its message matches the
case-insensitive `kimi\s+cli|coding\s+agents` pattern. -/
structure ErrorInfo where
  reason : Option String
  messageMatchesAgentGate : Bool
deriving DecidableEq

/-- Outcome of the upstream `fetch(attemptRequest)`: a thrown transport
exception, or a response with status, parsed error info, and the
`parseRateLimitReason` classification string. -/
inductive SendOutcome
  | exception
  | response (status : Nat) (info : ErrorInfo) (rlReason : String)
deriving DecidableEq

/-- All external inputs consumed by one iteration of the retry loop. -/
structure AttemptInput where
  aborted : Bool
  selected : Option Nat
  minWait : Nat
  tokenExpired : Bool
  initialRefresh : RefreshOutcome
  accessPresent : Bool
  jitterMs : Nat
  consumeResult : Bool
  send : SendOutcome
  retryRefresh : RefreshOutcome
  capacityRand : ℚ
deriving DecidableEq

/-- The configuration the loop reads: `maxWaitMs` is
`max_rate_limit_wait_seconds * 1000` when positive else `0`, plus the
selection strategy and request jitter bound. -/
structure DispatchConfig where
  maxWaitMs : Nat
  strategy : Strategy
  requestJitterMaxMs : Nat
deriving DecidableEq

/-- `maxWaitMs` computation from plugin.ts lines 791-793. -/
def maxWaitMsOf (maxRateLimitWaitSeconds : Nat) : Nat :=
  if maxRateLimitWaitSeconds > 0 then maxRateLimitWaitSeconds * 1000 else 0

/-- `Math.min(baseDelayMs * Math.pow(2, capacityRetryCount), maxDelayMs)`
with base 1000 and cap 8000. -/
def capacityBaseMs (count : Nat) : Nat := min (1000 * 2 ^ count) 8000

/-- `Math.round(exponentialDelay * (0.9 + Math.random() * 0.2))` where
`rand` is the value drawn from `Math.random()` (in `[0,1)`).
`Math.round` on non-negative reals is `⌊x + 1/2⌋`, which is `round` on `ℚ`. -/
def capacityWaitMs (count : Nat) (rand : ℚ) : ℤ :=
  round ((capacityBaseMs count : ℚ) * (9 / 10 + rand * (1 / 5)))

/-- `[.refundToken idx]` when a token had been consumed, else nothing. -/
def refundIf (consumed : Bool) (idx : Nat) : List Effect :=
  if consumed then [Effect.refundToken idx] else []

/-- The send + classify part of one loop iteration (plugin.ts lines
929-1107), from the `try { fetch(attemptRequest) ... }` onwards.
`consumed` is the `tokenConsumed` flag at the time of the send. -/
def dispatchSend (canRetry : Bool) (st : CallState) (idx : Nat)
    (inp : AttemptInput) (consumed : Bool) (pre : List Effect) :
    StepResult × List Effect :=
  match inp.send with
  | .exception =>
    (.cont st, pre ++ [Effect.send] ++ refundIf consumed idx ++
      [Effect.recordFailure idx, Effect.coolDown idx 15000 .networkError,
        Effect.requestSave, Effect.sleep 1000])
  | .response status info rlReason =>
    if 200 ≤ status ∧ status < 300 then
      (.ret status, pre ++ [Effect.send, Effect.recordSuccess idx,
        Effect.markRequestSuccess idx, Effect.markUsed idx, Effect.requestSave])
    else if (status = 401 ∨ status = 403) ∧ canRetry then
      if status = 403 ∧
          (info.reason = some "access_terminated_error" ∨ info.messageMatchesAgentGate) then
        (.thr .terminalAccessDenied, pre ++ [Effect.send])
      else if !st.attemptedRefreshForAccount then
        let st' : CallState := { st with attemptedRefreshForAccount := true }
        match inp.retryRefresh with
        | .refreshed =>
          (.cont st', pre ++ [Effect.send] ++ refundIf consumed idx ++
            [Effect.updateAuth idx, Effect.requestSave])
        | .threw e =>
          if terminalRefreshThrown e then
            (.cont st', pre ++ [Effect.send] ++ refundIf consumed idx ++
              [Effect.setEnabled idx false, Effect.coolDown idx 300000 .authFailure,
                Effect.requestSave, Effect.recordFailure idx])
          else
            (.cont st', pre ++ [Effect.send] ++ refundIf consumed idx ++
              [Effect.coolDown idx 60000 .authFailure, Effect.requestSave,
                Effect.recordFailure idx])
        | .noResult =>
          (.cont st', pre ++ [Effect.send] ++ refundIf consumed idx ++
            [Effect.coolDown idx 60000 .authFailure, Effect.requestSave,
              Effect.recordFailure idx])
      else
        (.cont st, pre ++ [Effect.send, Effect.coolDown idx 60000 .authFailure,
          Effect.requestSave, Effect.recordFailure idx] ++ refundIf consumed idx)
    else if status = 429 ∨ status = 503 ∨ status = 529 then
      if rlReason = "MODEL_CAPACITY_EXHAUSTED" ∨ rlReason = "SERVER_ERROR" then
        if !canRetry then
          (.ret status, pre ++ [Effect.send] ++ refundIf consumed idx)
        else
          (.cont { st with capacityRetryCount := min (st.capacityRetryCount + 1) 10 },
            pre ++ [Effect.send] ++ refundIf consumed idx ++
              [Effect.sleep (capacityWaitMs st.capacityRetryCount inp.capacityRand).toNat])
      else
        (.cont st, pre ++ [Effect.send] ++ refundIf consumed idx ++
          [Effect.recordRateLimit idx, Effect.markRateLimited idx, Effect.requestSave])
    else if !canRetry then
      (.ret status, pre ++ [Effect.send])
    else
      (.cont st, pre ++ [Effect.send, Effect.recordFailure idx,
        Effect.coolDown idx 15000 .networkError, Effect.requestSave, Effect.sleep 1000])

/-- The part of one loop iteration after the token is resolved
(plugin.ts lines 871-927): missing-access-token bailout, optional
request jitter, token-bucket consume under the hybrid strategy, then
the send. -/
def dispatchAfterAuth (cfg : DispatchConfig) (canRetry : Bool) (st : CallState) (idx : Nat)
    (inp : AttemptInput) (pre : List Effect) : StepResult × List Effect :=
  if !inp.accessPresent then
    (.cont st, pre ++ [Effect.coolDown idx 60000 .authFailure, Effect.requestSave])
  else
    let jitterEffs : List Effect :=
      if cfg.requestJitterMaxMs > 0 ∧ inp.jitterMs > 0 then [Effect.sleep inp.jitterMs] else []
    let consumed : Bool := if cfg.strategy = .hybrid then inp.consumeResult else false
    let consumeEffs : List Effect := if consumed then [Effect.consumeToken idx] else []
    dispatchSend canRetry st idx inp consumed (pre ++ jitterEffs ++ consumeEffs)

/-- One full iteration of the `while (true)` retry loop of the
dispatcher (plugin.ts lines 802-1108): abort check, account selection
(with the all-accounts-exhausted fail-fast), per-account state reset,
token resolution/refresh, then send + classify. -/
def dispatchStep (cfg : DispatchConfig) (canRetry : Bool) (st : CallState)
    (inp : AttemptInput) : StepResult × List Effect :=
  if inp.aborted then (.thr .aborted, [])
  else
    match inp.selected with
    | none =>
      if cfg.maxWaitMs > 0 ∧ inp.minWait > cfg.maxWaitMs then
        (.thr .allAccountsExhausted, [])
      else
        (.cont st, [Effect.sleep (max 1000 inp.minWait)])
    | some idx =>
      let st1 : CallState :=
        if st.lastAccountIndex = some idx then st
        else { capacityRetryCount := 0, attemptedRefreshForAccount := false,
               lastAccountIndex := some idx }
      if inp.tokenExpired then
        match inp.initialRefresh with
        | .refreshed =>
          dispatchAfterAuth cfg canRetry st1 idx inp [Effect.updateAuth idx, Effect.requestSave]
        | .noResult => dispatchAfterAuth cfg canRetry st1 idx inp []
        | .threw e =>
          if terminalRefreshThrown e then
            (.cont st1, [Effect.setEnabled idx false, Effect.coolDown idx 300000 .authFailure,
              Effect.requestSave])
          else
            (.cont st1, [Effect.coolDown idx 60000 .authFailure, Effect.requestSave])
      else dispatchAfterAuth cfg canRetry st1 idx inp []

/-! ## Backoff arithmetic -/

theorem capacityBaseMs_pos (k : Nat) : 0 < capacityBaseMs k := by
  unfold capacityBaseMs
  have h : 0 < 1000 * 2 ^ k := by positivity
  omega

theorem capacityBaseMs_le (k : Nat) : capacityBaseMs k ≤ 8000 := Nat.min_le_right _ _

theorem capacityBaseMs_mono {k1 k2 : Nat} (h : k1 ≤ k2) :
    capacityBaseMs k1 ≤ capacityBaseMs k2 :=
  min_le_min (Nat.mul_le_mul_left _ (Nat.pow_le_pow_right (by norm_num) h)) le_rfl

theorem capacityBaseMs_dvd (k : Nat) : 10 ∣ capacityBaseMs k := by
  unfold capacityBaseMs
  rcases min_cases (1000 * 2 ^ k) 8000 with ⟨h, _⟩ | ⟨h, _⟩ <;> rw [h]
  · exact ⟨100 * 2 ^ k, by ring⟩
  · exact ⟨800, rfl⟩

theorem capacityWaitMs_lb (k : Nat) (r : ℚ) (h0 : 0 ≤ r) :
    9 * (capacityBaseMs k : ℤ) ≤ 10 * capacityWaitMs k r := by
  obtain ⟨c, hc⟩ := capacityBaseMs_dvd k
  have hcq : (capacityBaseMs k : ℚ) = 10 * (c : ℚ) := by exact_mod_cast congrArg Nat.cast hc
  have hcz : (capacityBaseMs k : ℤ) = 10 * (c : ℤ) := by exact_mod_cast congrArg Nat.cast hc
  have hlow : (9 * (c : ℤ) : ℤ) ≤ capacityWaitMs k r := by
    unfold capacityWaitMs
    rw [round_eq, Int.le_floor]
    push_cast
    rw [hcq]
    have hcnn : (0 : ℚ) ≤ (c : ℚ) := by positivity
    nlinarith
  omega

theorem capacityWaitMs_ub (k : Nat) (r : ℚ) (h1 : r < 1) :
    10 * capacityWaitMs k r ≤ 11 * (capacityBaseMs k : ℤ) := by
  obtain ⟨c, hc⟩ := capacityBaseMs_dvd k
  have hcq : (capacityBaseMs k : ℚ) = 10 * (c : ℚ) := by exact_mod_cast congrArg Nat.cast hc
  have hcz : (capacityBaseMs k : ℤ) = 10 * (c : ℤ) := by exact_mod_cast congrArg Nat.cast hc
  have hcpos : 0 < c := by
    have := capacityBaseMs_pos k
    omega
  have hup : capacityWaitMs k r < 11 * (c : ℤ) + 1 := by
    unfold capacityWaitMs
    rw [round_eq, Int.floor_lt]
    push_cast
    rw [hcq]
    have hcp : (0 : ℚ) < (c : ℚ) := by exact_mod_cast hcpos
    nlinarith
  omega

theorem capacityWaitMs_nonneg (k : Nat) (r : ℚ) (h0 : 0 ≤ r) :
    0 ≤ capacityWaitMs k r := by
  have hlb := capacityWaitMs_lb k r h0
  have hb := capacityBaseMs_pos k
  have : (0 : ℤ) < (capacityBaseMs k : ℤ) := by exact_mod_cast hb
  omega

theorem capacityWaitMs_le_8800 (k : Nat) (r : ℚ) (h1 : r < 1) :
    capacityWaitMs k r ≤ 8800 := by
  have hub := capacityWaitMs_ub k r h1
  have hb : (capacityBaseMs k : ℤ) ≤ 8000 := by exact_mod_cast capacityBaseMs_le k
  omega

theorem capacityWaitMs_mono (r : ℚ) (h0 : 0 ≤ r) {k1 k2 : Nat} (h : k1 ≤ k2) :
    capacityWaitMs k1 r ≤ capacityWaitMs k2 r := by
  unfold capacityWaitMs
  rw [round_eq, round_eq]
  apply Int.floor_mono
  have hb : (capacityBaseMs k1 : ℚ) ≤ (capacityBaseMs k2 : ℚ) := by
    exact_mod_cast capacityBaseMs_mono h
  have hf : (0 : ℚ) ≤ 9 / 10 + r * (1 / 5) := by linarith
  nlinarith

theorem capacityWaitMs_factor (k : Nat) (r : ℚ) (h0 : 0 ≤ r) (h1 : r < 1) :
    ∃ f : ℚ, 9 / 10 ≤ f ∧ f ≤ 11 / 10 ∧
      (capacityWaitMs k r : ℚ) = (capacityBaseMs k : ℚ) * f := by
  have hbpos : (0 : ℚ) < (capacityBaseMs k : ℚ) := by exact_mod_cast capacityBaseMs_pos k
  refine ⟨(capacityWaitMs k r : ℚ) / (capacityBaseMs k : ℚ), ?_, ?_, ?_⟩
  · rw [le_div_iff₀ hbpos]
    have := capacityWaitMs_lb k r h0
    have hq : (9 : ℚ) * (capacityBaseMs k : ℚ) ≤ 10 * (capacityWaitMs k r : ℚ) := by
      exact_mod_cast this
    linarith
  · rw [div_le_iff₀ hbpos]
    have := capacityWaitMs_ub k r h1
    have hq : (10 : ℚ) * (capacityWaitMs k r : ℚ) ≤ 11 * (capacityBaseMs k : ℚ) := by
      exact_mod_cast this
    linarith
  · rw [mul_div_cancel₀ _ (ne_of_gt hbpos)]

/-! ## Dispatcher path lemmas -/

/-- Under a reachable auth phase (account selected, no refresh throw,
access token present), one loop iteration reduces to `dispatchSend` with
a prefix of benign effects (auth update, save scheduling, jitter sleep,
token consumption). -/
theorem dispatchStep_toSend (cfg : DispatchConfig) (canRetry : Bool) (st : CallState)
    (inp : AttemptInput) (idx : Nat)
    (hab : inp.aborted = false) (hsel : inp.selected = some idx)
    (hrefok : ∀ e, inp.initialRefresh ≠ RefreshOutcome.threw e)
    (hacc : inp.accessPresent = true) :
    ∃ pre : List Effect,
      dispatchStep cfg canRetry st inp =
        dispatchSend canRetry
          (if st.lastAccountIndex = some idx then st
           else { capacityRetryCount := 0, attemptedRefreshForAccount := false,
                  lastAccountIndex := some idx }) idx inp
          (if cfg.strategy = Strategy.hybrid then inp.consumeResult else false) pre ∧
      ∀ ef ∈ pre, ef.makesIneligible = false ∧ ef ≠ Effect.send ∧
        ∀ i, ef ≠ Effect.refundToken i := by
  have hmid : ∀ pre0 : List Effect,
      (∀ ef ∈ pre0, ef.makesIneligible = false ∧ ef ≠ Effect.send ∧
        ∀ i, ef ≠ Effect.refundToken i) →
      ∃ pre : List Effect,
        dispatchAfterAuth cfg canRetry
          (if st.lastAccountIndex = some idx then st
           else { capacityRetryCount := 0, attemptedRefreshForAccount := false,
                  lastAccountIndex := some idx }) idx inp pre0 =
          dispatchSend canRetry
            (if st.lastAccountIndex = some idx then st
             else { capacityRetryCount := 0, attemptedRefreshForAccount := false,
                    lastAccountIndex := some idx }) idx inp
            (if cfg.strategy = Strategy.hybrid then inp.consumeResult else false) pre ∧
        ∀ ef ∈ pre, ef.makesIneligible = false ∧ ef ≠ Effect.send ∧
          ∀ i, ef ≠ Effect.refundToken i := by
    intro pre0 hpre0
    refine ⟨pre0 ++
      ((if cfg.requestJitterMaxMs > 0 ∧ inp.jitterMs > 0 then [Effect.sleep inp.jitterMs] else []) ++
        (if (if cfg.strategy = Strategy.hybrid then inp.consumeResult else false) then
          [Effect.consumeToken idx] else [])), ?_, ?_⟩
    · unfold dispatchAfterAuth
      rw [hacc]
      simp only [Bool.not_true, Bool.false_eq_true, if_false, List.append_assoc]
    · intro ef hef
      rcases List.mem_append.mp hef with h | h
      · exact hpre0 ef h
      · rcases List.mem_append.mp h with h2 | h2
        · rcases Decidable.em (cfg.requestJitterMaxMs > 0 ∧ inp.jitterMs > 0) with hc | hc
          · rw [if_pos hc] at h2
            simp only [List.mem_singleton] at h2
            subst h2
            exact ⟨rfl, by simp, by simp⟩
          · rw [if_neg hc] at h2
            simp at h2
        · rcases Decidable.em
            ((if cfg.strategy = Strategy.hybrid then inp.consumeResult else false) = true) with
            hc | hc
          · rw [if_pos hc] at h2
            simp only [List.mem_singleton] at h2
            subst h2
            exact ⟨rfl, by simp, by simp⟩
          · rw [if_neg hc] at h2
            simp at h2
  unfold dispatchStep
  rw [hab, hsel]
  simp only [Bool.false_eq_true, if_false]
  cases hexp : inp.tokenExpired with
  | false =>
    simp only [Bool.false_eq_true, if_false]
    exact hmid [] (by intro ef hef; simp at hef)
  | true =>
    simp only [if_true]
    cases hrf : inp.initialRefresh with
    | refreshed =>
      exact hmid [Effect.updateAuth idx, Effect.requestSave] (by
        intro ef hef
        rcases List.mem_cons.mp hef with h | h
        · subst h; exact ⟨rfl, by simp, by simp⟩
        · simp only [List.mem_singleton] at h
          subst h; exact ⟨rfl, by simp, by simp⟩)
    | noResult =>
      exact hmid [] (by intro ef hef; simp at hef)
    | threw e => exact absurd hrf (hrefok e)

theorem terminalRefreshThrown_iff (e : KimiRefreshError) :
    terminalRefreshThrown e = true ↔
      (e.isKimiTokenRefreshError = true ∧
        (e.code = some "invalid_grant" ∨ e.status = 401 ∨ e.status = 403)) := by
  unfold terminalRefreshThrown isTerminalRefreshErr
  simp

/-! ## Claim theorems -/

/-- C1: for every dispatch iteration in which account selection returns
no eligible account, the configured maximum wait budget is positive and
the minimum projected wait exceeds that budget, the dispatcher throws
the terminal all-accounts-exhausted error having performed no upstream
send and no account mutation whatsoever (the effect list is empty). -/
theorem allAccountsExhausted_failFast (cfg : DispatchConfig) (canRetry : Bool)
    (st : CallState) (inp : AttemptInput)
    (hab : inp.aborted = false) (hsel : inp.selected = none)
    (hpos : 0 < cfg.maxWaitMs) (hwait : cfg.maxWaitMs < inp.minWait) :
    dispatchStep cfg canRetry st inp = (StepResult.thr ErrorKind.allAccountsExhausted, []) := by
  unfold dispatchStep
  rw [hab, hsel]
  simp only [Bool.false_eq_true, if_false]
  rw [if_pos ⟨hpos, hwait⟩]

/-- Witness for C1 at a concrete configuration and input
(300s budget, 301s projected minimum wait). -/
theorem allAccountsExhausted_failFast_witness :
    dispatchStep ⟨300000, Strategy.hybrid, 0⟩ true ⟨0, false, none⟩
      ⟨false, none, 301000, false, RefreshOutcome.noResult, true, 0, false,
        SendOutcome.exception, RefreshOutcome.noResult, 0⟩ =
      (StepResult.thr ErrorKind.allAccountsExhausted, []) :=
  allAccountsExhausted_failFast _ _ _ _ rfl rfl (by decide) (by decide)

/-- The concrete configuration for the C2 exhibit: hybrid/sticky details
are irrelevant; `canRetry` is passed as `false` (body not bufferable). -/
def c2Cfg : DispatchConfig := ⟨300000, Strategy.sticky, 0⟩

/-- Per-call state for the C2 exhibit (account 0 already current). -/
def c2St : CallState := ⟨0, false, some 0⟩

/-- C2 exhibit input: the single attempt gets a 429 that
`parseRateLimitReason` classifies as a true rate limit. -/
def c2Input429 : AttemptInput :=
  ⟨false, some 0, 0, false, RefreshOutcome.noResult, true, 0, false,
    SendOutcome.response 429 ⟨some "rate_limit_exceeded", false⟩ "RATE_LIMIT_EXCEEDED",
    RefreshOutcome.noResult, 0⟩

/-- C2 exhibit input: the single attempt throws a transport exception. -/
def c2InputExc : AttemptInput := { c2Input429 with send := SendOutcome.exception }

/-- C2 (code-bug exhibit): on a call whose body could not be buffered
(retries disabled, `canRetry = false`), an attempt that hits a true rate
limit marks the account rate-limited and continues the loop, and an
attempt that throws a transport exception also continues the loop — in
both cases a further upstream attempt follows instead of the call
returning or throwing after its single attempt. -/
theorem unbuffered_call_still_retries :
    (dispatchStep c2Cfg false c2St c2Input429).1 = StepResult.cont c2St ∧
    Effect.send ∈ (dispatchStep c2Cfg false c2St c2Input429).2 ∧
    Effect.markRateLimited 0 ∈ (dispatchStep c2Cfg false c2St c2Input429).2 ∧
    (dispatchStep c2Cfg false c2St c2InputExc).1 = StepResult.cont c2St ∧
    Effect.send ∈ (dispatchStep c2Cfg false c2St c2InputExc).2 := by
  decide

/-- C4 counterexample input: 403 response whose payload carries
`access_terminated_error`, on a call with retries disabled. -/
def c4Input : AttemptInput :=
  ⟨false, some 0, 0, false, RefreshOutcome.noResult, true, 0, false,
    SendOutcome.response 403 ⟨some "access_terminated_error", false⟩ "AUTH_ERROR",
    RefreshOutcome.noResult, 0⟩

/-- C4 counterexample: when the request body could not be buffered
(`canRetry = false`), a 403 attempt whose payload indicates the client
identity is rejected is returned to the caller rather than thrown — the
auth-error branch (and with it the terminal throw) is guarded by
`canRetry`. -/
theorem terminal403_returned_when_unbuffered :
    (dispatchStep ⟨300000, Strategy.sticky, 0⟩ false ⟨0, false, some 0⟩ c4Input).1 =
      StepResult.ret 403 := by
  decide

/-- C4 (amended): on every dispatch attempt with retries enabled for the
call, a 403 response whose payload indicates the client identity itself
is rejected (reason `access_terminated_error`, or a message matching the
Kimi-CLI/coding-agents pattern) makes the dispatcher throw terminally at
once, with no rotation — no effect of the iteration disables, cools down
or rate-limits any account. -/
theorem terminal403_throws_when_retryable (cfg : DispatchConfig) (st : CallState)
    (inp : AttemptInput) (idx : Nat) (info : ErrorInfo) (rl : String)
    (hab : inp.aborted = false) (hsel : inp.selected = some idx)
    (hrefok : ∀ e, inp.initialRefresh ≠ RefreshOutcome.threw e)
    (hacc : inp.accessPresent = true)
    (hsend : inp.send = SendOutcome.response 403 info rl)
    (hterm : info.reason = some "access_terminated_error" ∨
      info.messageMatchesAgentGate = true) :
    (dispatchStep cfg true st inp).1 = StepResult.thr ErrorKind.terminalAccessDenied ∧
    ∀ ef ∈ (dispatchStep cfg true st inp).2, ef.makesIneligible = false := by
  obtain ⟨pre, heq, hpre⟩ := dispatchStep_toSend cfg true st inp idx hab hsel hrefok hacc
  rw [heq]
  unfold dispatchSend
  rw [hsend]
  simp only []
  rw [if_pos (show (403 = 401 ∨ True) ∧ True from ⟨Or.inr trivial, trivial⟩)]
  rw [if_pos (show True ∧ (info.reason = some "access_terminated_error" ∨
    info.messageMatchesAgentGate = true) from ⟨trivial, hterm⟩)]
  refine ⟨rfl, ?_⟩
  intro ef hef
  rcases List.mem_append.mp hef with h | h
  · exact (hpre ef h).1
  · simp only [List.mem_singleton] at h
    subst h
    rfl

/-- Witness for the amended C4 at a concrete input. -/
theorem terminal403_throws_when_retryable_witness :
    (dispatchStep ⟨300000, Strategy.sticky, 0⟩ true ⟨0, false, some 0⟩
        ⟨false, some 0, 0, false, RefreshOutcome.noResult, true, 0, false,
          SendOutcome.response 403 ⟨some "access_terminated_error", false⟩ "AUTH_ERROR",
          RefreshOutcome.noResult, 0⟩).1 =
      StepResult.thr ErrorKind.terminalAccessDenied ∧
    ∀ ef ∈ (dispatchStep ⟨300000, Strategy.sticky, 0⟩ true ⟨0, false, some 0⟩
        ⟨false, some 0, 0, false, RefreshOutcome.noResult, true, 0, false,
          SendOutcome.response 403 ⟨some "access_terminated_error", false⟩ "AUTH_ERROR",
          RefreshOutcome.noResult, 0⟩).2, ef.makesIneligible = false :=
  terminal403_throws_when_retryable _ _ _ 0 ⟨some "access_terminated_error", false⟩
    "AUTH_ERROR" rfl rfl (by intro e h; cases h) rfl rfl (Or.inl rfl)

/-- C6 counterexample: a transient pre-send refresh failure signaled by
an undefined result (the code's own transient signal, see C10) gets no
cooldown at all — `if (refreshed)` simply falls through and, the stale
access token still being present, the dispatcher proceeds to send the
request instead of cooling the account down for 1 minute and going back
to selection. The effect list contains no cooldown. -/
theorem transientRefresh_noCooldown_staleSend :
    dispatchStep ⟨300000, Strategy.sticky, 0⟩ true ⟨0, false, some 0⟩
      ⟨false, some 0, 0, true, RefreshOutcome.noResult, true, 0, false,
        SendOutcome.response 200 ⟨none, false⟩ "", RefreshOutcome.noResult, 0⟩ =
      (StepResult.ret 200,
        [Effect.send, Effect.recordSuccess 0, Effect.markRequestSuccess 0,
          Effect.markUsed 0, Effect.requestSave]) := by
  decide

/-- C6 (amended): when the pre-send token refresh fails by throwing, a
terminal failure (`KimiTokenRefreshError` with code `invalid_grant` or
HTTP status 401 or 403) disables the account and cools it down for 5
minutes with reason auth-failure before selection resumes, while any
other thrown refresh failure only cools the account down for 1 minute
with reason auth-failure and does not disable it; either way the loop
continues to selection without sending. (A transient failure signaled by
an undefined result is ignored instead — see the counterexample.) -/
theorem refreshFailure_disables_or_coolsDown (cfg : DispatchConfig) (canRetry : Bool)
    (st : CallState) (inp : AttemptInput) (idx : Nat) (e : KimiRefreshError)
    (hab : inp.aborted = false) (hsel : inp.selected = some idx)
    (hexp : inp.tokenExpired = true) (hthrew : inp.initialRefresh = RefreshOutcome.threw e) :
    dispatchStep cfg canRetry st inp =
      (StepResult.cont (if st.lastAccountIndex = some idx then st
          else { capacityRetryCount := 0, attemptedRefreshForAccount := false,
                 lastAccountIndex := some idx }),
        if e.isKimiTokenRefreshError = true ∧
            (e.code = some "invalid_grant" ∨ e.status = 401 ∨ e.status = 403) then
          [Effect.setEnabled idx false, Effect.coolDown idx 300000 CooldownReason.authFailure,
            Effect.requestSave]
        else
          [Effect.coolDown idx 60000 CooldownReason.authFailure, Effect.requestSave]) := by
  unfold dispatchStep
  rw [hab, hsel]
  simp only [Bool.false_eq_true, if_false]
  rw [hexp]
  simp only [if_true]
  rw [hthrew]
  by_cases hterm : e.isKimiTokenRefreshError = true ∧
      (e.code = some "invalid_grant" ∨ e.status = 401 ∨ e.status = 403)
  · have hb : terminalRefreshThrown e = true := (terminalRefreshThrown_iff e).mpr hterm
    simp only [hb, if_true, if_pos hterm]
  · have hb : terminalRefreshThrown e = false := by
      rcases hbt : terminalRefreshThrown e with _ | _
      · rfl
      · exact absurd ((terminalRefreshThrown_iff e).mp hbt) hterm
    simp only [hb, Bool.false_eq_true, if_false, if_neg hterm]

/-- Witness for C6: terminal refresh failure (invalid_grant) on the
current account disables it with the 5-minute auth-failure cooldown. -/
theorem refreshFailure_disables_witness :
    dispatchStep ⟨300000, Strategy.hybrid, 0⟩ true ⟨0, false, some 0⟩
      ⟨false, some 0, 0, true, RefreshOutcome.threw ⟨true, some "invalid_grant", 400⟩,
        false, 0, false, SendOutcome.exception, RefreshOutcome.noResult, 0⟩ =
      (StepResult.cont ⟨0, false, some 0⟩,
        [Effect.setEnabled 0 false, Effect.coolDown 0 300000 CooldownReason.authFailure,
          Effect.requestSave]) := by
  rw [refreshFailure_disables_or_coolsDown ⟨300000, Strategy.hybrid, 0⟩ true
    ⟨0, false, some 0⟩ _ 0 ⟨true, some "invalid_grant", 400⟩ rfl rfl rfl rfl]
  decide

/-- C10: `refreshAccessToken` throws (a `KimiTokenRefreshError`) exactly
when the refresh endpoint returns a non-ok HTTP response; a missing
refresh token, a throwing fetch (transport error), or an unprocessable
success payload all yield `undefined` without throwing. -/
theorem refreshAccessToken_throw_iff (w : RefreshWorld) :
    ((∃ code status, refreshAccessTokenModel w = RefreshResult.threwError code status) ↔
      (w.hasRefreshToken = true ∧
        ∃ r, w.fetch = FetchOutcome.response r ∧ r.ok = false)) ∧
    (refreshAccessTokenModel w = RefreshResult.undefinedResult ↔
      (w.hasRefreshToken = false ∨ w.fetch = FetchOutcome.threw ∨
        ∃ r, w.fetch = FetchOutcome.response r ∧ r.ok = true ∧ w.payloadOk = false)) := by
  obtain ⟨hrt, f, p⟩ := w
  cases f with
  | threw => cases hrt <;> cases p <;> simp [refreshAccessTokenModel]
  | response r =>
    obtain ⟨ok, status, code⟩ := r
    cases hrt <;> cases p <;> cases ok <;> simp [refreshAccessTokenModel]

/-- Witness for C10: a 401 response with code invalid_grant throws. -/
theorem refreshAccessToken_throw_iff_witness :
    ∃ code status,
      refreshAccessTokenModel ⟨true, FetchOutcome.response ⟨false, 401, some "invalid_grant"⟩, true⟩ =
        RefreshResult.threwError code status :=
  (refreshAccessToken_throw_iff _).1.mpr ⟨rfl, ⟨_, rfl, rfl⟩⟩

/-- A capacity-exhausted/server-error response with retries enabled:
the send+classify phase advances the saturating retry counter, refunds
the consumed token, and sleeps the jittered exponential backoff. -/
theorem dispatchSend_capacity_eq (st : CallState) (idx : Nat) (inp : AttemptInput)
    (consumed : Bool) (pre : List Effect) (status : Nat) (info : ErrorInfo) (rl : String)
    (hsend : inp.send = SendOutcome.response status info rl)
    (hstat : status = 429 ∨ status = 503 ∨ status = 529)
    (hrl : rl = "MODEL_CAPACITY_EXHAUSTED" ∨ rl = "SERVER_ERROR") :
    dispatchSend true st idx inp consumed pre =
      (StepResult.cont { st with capacityRetryCount := min (st.capacityRetryCount + 1) 10 },
        pre ++ [Effect.send] ++ refundIf consumed idx ++
          [Effect.sleep (capacityWaitMs st.capacityRetryCount inp.capacityRand).toNat]) := by
  unfold dispatchSend
  rw [hsend]
  rcases hstat with h | h | h <;> subst h <;>
    rcases hrl with h2 | h2 <;> subst h2 <;> simp

/-- C5: for every dispatch attempt on the current account whose response
is 429/503/529 classified as capacity exhaustion or server error (with
retries enabled), the dispatcher stays with the same account: the
iteration continues with only the saturating retry counter advanced
(min (k+1) 10), no effect disables/cools down/rate-limits any account,
and it sleeps the k-th backoff delay, which equals
min(1000·2^k, 8000) ms times a jitter factor in [0.9, 1.1], is at most
8800 ms, and at a fixed jitter draw is non-decreasing in k. -/
theorem capacityBackoff_sameAccount (cfg : DispatchConfig) (st : CallState)
    (inp : AttemptInput) (idx : Nat) (status : Nat) (info : ErrorInfo) (rl : String)
    (hab : inp.aborted = false) (hsel : inp.selected = some idx)
    (hlast : st.lastAccountIndex = some idx)
    (hrefok : ∀ e, inp.initialRefresh ≠ RefreshOutcome.threw e)
    (hacc : inp.accessPresent = true)
    (hsend : inp.send = SendOutcome.response status info rl)
    (hstat : status = 429 ∨ status = 503 ∨ status = 529)
    (hrl : rl = "MODEL_CAPACITY_EXHAUSTED" ∨ rl = "SERVER_ERROR")
    (hrand : 0 ≤ inp.capacityRand ∧ inp.capacityRand < 1) :
    (dispatchStep cfg true st inp).1 =
      StepResult.cont { st with capacityRetryCount := min (st.capacityRetryCount + 1) 10 } ∧
    Effect.sleep (capacityWaitMs st.capacityRetryCount inp.capacityRand).toNat ∈
      (dispatchStep cfg true st inp).2 ∧
    (∀ ef ∈ (dispatchStep cfg true st inp).2, ef.makesIneligible = false) ∧
    (∃ f : ℚ, 9 / 10 ≤ f ∧ f ≤ 11 / 10 ∧
      (capacityWaitMs st.capacityRetryCount inp.capacityRand : ℚ) =
        (capacityBaseMs st.capacityRetryCount : ℚ) * f) ∧
    capacityWaitMs st.capacityRetryCount inp.capacityRand ≤ 8800 ∧
    (∀ k1 k2 : Nat, k1 ≤ k2 →
      capacityWaitMs k1 inp.capacityRand ≤ capacityWaitMs k2 inp.capacityRand) := by
  obtain ⟨pre, heq, hpre⟩ := dispatchStep_toSend cfg true st inp idx hab hsel hrefok hacc
  rw [if_pos hlast] at heq
  rw [heq, dispatchSend_capacity_eq st idx inp _ pre status info rl hsend hstat hrl]
  refine ⟨rfl, ?_, ?_, ?_, ?_, ?_⟩
  · simp
  · intro ef hef
    simp only [List.append_assoc, List.mem_append] at hef
    rcases hef with h | h | h | h
    · exact (hpre ef h).1
    · simp only [List.mem_singleton] at h; subst h; rfl
    · unfold refundIf at h
      rcases Decidable.em ((if cfg.strategy = Strategy.hybrid then inp.consumeResult
          else false) = true) with hc | hc
      · rw [if_pos hc] at h
        simp only [List.mem_singleton] at h; subst h; rfl
      · rw [if_neg hc] at h
        simp at h
    · simp only [List.mem_singleton] at h; subst h; rfl
  · exact capacityWaitMs_factor _ _ hrand.1 hrand.2
  · exact capacityWaitMs_le_8800 _ _ hrand.2
  · intro k1 k2 hk
    exact capacityWaitMs_mono _ hrand.1 hk

/-- Witness for C5 at a concrete input (503 SERVER_ERROR on account 0,
retry count 2, jitter draw 1/2, giving base 4000 and delay 4000). -/
theorem capacityBackoff_sameAccount_witness :
    ((dispatchStep ⟨300000, Strategy.hybrid, 0⟩ true ⟨2, false, some 0⟩
        ⟨false, some 0, 0, false, RefreshOutcome.noResult, true, 0, true,
          SendOutcome.response 503 ⟨none, false⟩ "SERVER_ERROR",
          RefreshOutcome.noResult, 1 / 2⟩).1 =
      StepResult.cont ⟨3, false, some 0⟩ ∧
    Effect.sleep (capacityWaitMs 2 (1 / 2)).toNat ∈
      (dispatchStep ⟨300000, Strategy.hybrid, 0⟩ true ⟨2, false, some 0⟩
        ⟨false, some 0, 0, false, RefreshOutcome.noResult, true, 0, true,
          SendOutcome.response 503 ⟨none, false⟩ "SERVER_ERROR",
          RefreshOutcome.noResult, 1 / 2⟩).2) ∧
    capacityWaitMs 2 (1 / 2) = 4000 := by
  constructor
  · have h := capacityBackoff_sameAccount ⟨300000, Strategy.hybrid, 0⟩ ⟨2, false, some 0⟩
      ⟨false, some 0, 0, false, RefreshOutcome.noResult, true, 0, true,
        SendOutcome.response 503 ⟨none, false⟩ "SERVER_ERROR",
        RefreshOutcome.noResult, 1 / 2⟩ 0 503 ⟨none, false⟩ "SERVER_ERROR"
      rfl rfl rfl (by intro e h; cases h) rfl rfl (Or.inr (Or.inl rfl)) (Or.inr rfl)
      (by constructor <;> norm_num)
    exact ⟨h.1, h.2.1⟩
  · unfold capacityWaitMs capacityBaseMs
    norm_num

/-- C3 counterexample input: hybrid strategy, token consumed, the
attempt gets an HTTP 500 (other-error branch) with retries enabled. -/
def c3Input : AttemptInput :=
  ⟨false, some 0, 0, false, RefreshOutcome.noResult, true, 0, true,
    SendOutcome.response 500 ⟨none, false⟩ "SERVER_ERROR",
    RefreshOutcome.noResult, 0⟩

/-- C3 counterexample: under the hybrid strategy an attempt that consumed
a token and then received an HTTP 500 (the other-HTTP-error branch)
continues to another account with the consumed token never refunded. -/
theorem consumedToken_not_refunded_on_other_error :
    Effect.consumeToken 0 ∈
      (dispatchStep ⟨300000, Strategy.hybrid, 0⟩ true ⟨0, false, some 0⟩ c3Input).2 ∧
    Effect.refundToken 0 ∉
      (dispatchStep ⟨300000, Strategy.hybrid, 0⟩ true ⟨0, false, some 0⟩ c3Input).2 ∧
    (dispatchStep ⟨300000, Strategy.hybrid, 0⟩ true ⟨0, false, some 0⟩ c3Input).1 =
      StepResult.cont ⟨0, false, some 0⟩ := by
  decide

/-- C3 (amended): whenever a token-bucket token was consumed for the
attempt (hybrid strategy, consume succeeded) and the attempt ends in a
transport exception, a 429/503/529 response, or a 401/403 handled by the
rotation path (retries enabled, payload not the terminal
client-identity rejection), the token is refunded to that account within
the same iteration; and consumption never blocks the dispatch — the
upstream send still happens. In the other-HTTP-error branch and on the
terminal 403 throw the token is not refunded (see the counterexample). -/
theorem consumedToken_refunded_in_refunding_branches (cfg : DispatchConfig)
    (canRetry : Bool) (st : CallState) (inp : AttemptInput) (idx : Nat)
    (hab : inp.aborted = false) (hsel : inp.selected = some idx)
    (hrefok : ∀ e, inp.initialRefresh ≠ RefreshOutcome.threw e)
    (hacc : inp.accessPresent = true)
    (hhyb : cfg.strategy = Strategy.hybrid) (hcons : inp.consumeResult = true)
    (hbranch :
      inp.send = SendOutcome.exception ∨
      (∃ status info rl, inp.send = SendOutcome.response status info rl ∧
        (status = 429 ∨ status = 503 ∨ status = 529)) ∨
      (∃ status info rl, inp.send = SendOutcome.response status info rl ∧
        (status = 401 ∨ status = 403) ∧ canRetry = true ∧
        ¬ (status = 403 ∧ (info.reason = some "access_terminated_error" ∨
          info.messageMatchesAgentGate = true)))) :
    Effect.refundToken idx ∈ (dispatchStep cfg canRetry st inp).2 ∧
    Effect.send ∈ (dispatchStep cfg canRetry st inp).2 := by
  obtain ⟨pre, heq, hpre⟩ := dispatchStep_toSend cfg canRetry st inp idx hab hsel hrefok hacc
  have hconsumed : (if cfg.strategy = Strategy.hybrid then inp.consumeResult else false) = true := by
    rw [if_pos hhyb, hcons]
  rw [hconsumed] at heq
  rw [heq]
  rcases hbranch with hexc | ⟨status, info, rl, hresp, hstat⟩ |
      ⟨status, info, rl, hresp, hstat, hcr, hterm⟩
  · unfold dispatchSend
    rw [hexc]
    simp [refundIf]
  · unfold dispatchSend
    rw [hresp]
    rcases hstat with h | h | h <;> subst h <;>
      by_cases hcap : rl = "MODEL_CAPACITY_EXHAUSTED" ∨ rl = "SERVER_ERROR" <;>
      cases canRetry <;> simp [hcap, refundIf]
  · subst hcr
    unfold dispatchSend
    rw [hresp]
    rcases hstat with h | h <;> subst h
    · by_cases hatt : st.attemptedRefreshForAccount
      all_goals by_cases hatt1 : (if st.lastAccountIndex = some idx then st
          else { capacityRetryCount := 0, attemptedRefreshForAccount := false,
                 lastAccountIndex := some idx }).attemptedRefreshForAccount
      all_goals cases hrr : inp.retryRefresh
      all_goals simp [hatt1, hrr, refundIf]
      all_goals rename_i e
      all_goals by_cases htr : terminalRefreshThrown e = true
      all_goals simp [htr]
    · have hterm2 : ¬ (info.reason = some "access_terminated_error" ∨
          info.messageMatchesAgentGate = true) := fun hc => hterm ⟨rfl, hc⟩
      by_cases hatt1 : (if st.lastAccountIndex = some idx then st
          else { capacityRetryCount := 0, attemptedRefreshForAccount := false,
                 lastAccountIndex := some idx }).attemptedRefreshForAccount
      all_goals cases hrr : inp.retryRefresh
      all_goals simp [hatt1, hrr, refundIf, hterm2]
      all_goals rename_i e
      all_goals by_cases htr : terminalRefreshThrown e = true
      all_goals simp [htr]

/-! ## Merge-on-save lemmas (C7) -/

/-- A step for an account whose token differs from `t` leaves the lookup
at `t` unchanged. -/
theorem accPoolStep_lookup_ne (f : List (String × MAccount) → MAccount → MAccount)
    (m : List (String × MAccount)) (a : MAccount) (t : String)
    (hat : a.refreshToken ≠ t) :
    (accPoolStep f m a).lookup t = m.lookup t := by
  unfold accPoolStep
  by_cases ha : a.refreshToken = ""
  · rw [if_pos ha]
  · rw [if_neg ha, lookup_jsSet_ne _ _ _ _ (Ne.symm hat)]

theorem foldl_accPoolStep_lookup_ne (f : List (String × MAccount) → MAccount → MAccount)
    (t : String) :
    ∀ (l : List MAccount) (m : List (String × MAccount)),
      (∀ a ∈ l, a.refreshToken ≠ t) →
      (l.foldl (accPoolStep f) m).lookup t = m.lookup t := by
  intro l
  induction l with
  | nil => intro m _; rfl
  | cons a rest ih =>
    intro m h
    simp only [List.foldl_cons]
    rw [ih _ (fun b hb => h b (List.mem_cons_of_mem a hb))]
    exact accPoolStep_lookup_ne f m a t (h a (List.mem_cons_self a rest))

/-- The first loop of `mergeAccountStorage` (plain set of existing
accounts): lookup after the fold finds the unique existing account with
that token, else falls back to the accumulator. -/
theorem mergeStorage_firstLoop_lookup (t : String) (ht : t ≠ "") :
    ∀ (l : List MAccount) (m : List (String × MAccount)),
      (l.map (fun a => a.refreshToken)).Nodup →
      (l.foldl (accPoolStep (fun _ acc => acc)) m).lookup t =
        (match l.find? (fun a => a.refreshToken = t) with
          | some a => some a
          | none => m.lookup t) := by
  intro l
  induction l with
  | nil => intro m _; rfl
  | cons a rest ih =>
    intro m hnd
    simp only [List.map_cons, List.nodup_cons] at hnd
    obtain ⟨hna, hndr⟩ := hnd
    simp only [List.foldl_cons]
    by_cases hat : a.refreshToken = t
    · have hrest : ∀ b ∈ rest, b.refreshToken ≠ t := by
        intro b hb hbt
        exact hna (by rw [hat, ← hbt]; exact List.mem_map_of_mem _ hb)
      rw [foldl_accPoolStep_lookup_ne _ _ rest _ hrest]
      unfold accPoolStep
      rw [if_neg (by rw [hat]; exact ht)]
      rw [hat, lookup_jsSet_self]
      rw [List.find?_cons_of_pos _ (by simp [hat])]
    · rw [List.find?_cons_of_neg _ (by simp [hat])]
      rw [ih _ hndr]
      cases hr : List.find? (fun b => decide (b.refreshToken = t)) rest
      · simp only []
        exact accPoolStep_lookup_ne _ m a t hat
      · rfl

/-- The second loop of `mergeAccountStorage` (merge of incoming
accounts): lookup after the fold merges the unique incoming account with
the pre-existing entry when both are present. -/
theorem mergeStorage_secondLoop_lookup (t : String) (ht : t ≠ "") :
    ∀ (l : List MAccount) (m : List (String × MAccount)),
      (l.map (fun a => a.refreshToken)).Nodup →
      (l.foldl (accPoolStep (fun m acc =>
          match m.lookup acc.refreshToken with
          | some existingAcc => mergeAccount existingAcc acc
          | none => acc)) m).lookup t =
        (match l.find? (fun a => a.refreshToken = t), m.lookup t with
          | some i, some e => some (mergeAccount e i)
          | some i, none => some i
          | none, r => r) := by
  intro l
  induction l with
  | nil =>
    intro m _
    simp only [List.foldl_nil]
    cases hm : m.lookup t <;> rfl
  | cons a rest ih =>
    intro m hnd
    simp only [List.map_cons, List.nodup_cons] at hnd
    obtain ⟨hna, hndr⟩ := hnd
    simp only [List.foldl_cons]
    by_cases hat : a.refreshToken = t
    · have hrest : ∀ b ∈ rest, b.refreshToken ≠ t := by
        intro b hb hbt
        exact hna (by rw [hat, ← hbt]; exact List.mem_map_of_mem _ hb)
      rw [foldl_accPoolStep_lookup_ne _ _ rest _ hrest]
      unfold accPoolStep
      rw [if_neg (by rw [hat]; exact ht)]
      rw [hat, lookup_jsSet_self]
      rw [List.find?_cons_of_pos _ (by simp [hat])]
      show some (match List.lookup a.refreshToken m with
        | some existingAcc => mergeAccount existingAcc a
        | none => a) = _
      rw [hat]
      cases hm : List.lookup t m <;> rfl
    · rw [List.find?_cons_of_neg _ (by simp [hat])]
      rw [ih _ hndr]
      have hstep := accPoolStep_lookup_ne (fun m acc =>
        match m.lookup acc.refreshToken with
        | some existingAcc => mergeAccount existingAcc acc
        | none => acc) m a t hat
      rw [hstep]

/-- Every entry of the account map keys its value's refresh token. -/
def KeyInv (m : List (String × MAccount)) : Prop :=
  ∀ p ∈ m, p.2.refreshToken = p.1

theorem keyInv_jsSet (m : List (String × MAccount)) (k : String) (v : MAccount)
    (hv : v.refreshToken = k) (hm : KeyInv m) : KeyInv (jsSet m k v) := by
  unfold jsSet
  by_cases h : (m.lookup k).isSome
  · rw [if_pos h]
    intro p hp
    obtain ⟨q, hq, hqp⟩ := List.mem_map.mp hp
    by_cases hk : q.1 = k
    · rw [if_pos hk] at hqp
      subst hqp
      exact hv
    · rw [if_neg hk] at hqp
      subst hqp
      exact hm q hq
  · rw [if_neg h]
    intro p hp
    rcases List.mem_append.mp hp with h2 | h2
    · exact hm p h2
    · simp only [List.mem_singleton] at h2
      subst h2
      exact hv

theorem keyInv_foldl (f : List (String × MAccount) → MAccount → MAccount)
    (hf : ∀ m a, (f m a).refreshToken = a.refreshToken) :
    ∀ (l : List MAccount) (m : List (String × MAccount)),
      KeyInv m → KeyInv (l.foldl (accPoolStep f) m) := by
  intro l
  induction l with
  | nil => intro m hm; exact hm
  | cons a rest ih =>
    intro m hm
    simp only [List.foldl_cons]
    apply ih
    unfold accPoolStep
    by_cases ha : a.refreshToken = ""
    · rw [if_pos ha]; exact hm
    · rw [if_neg ha]
      exact keyInv_jsSet m _ _ (hf m a) hm

/-- On a map satisfying the key invariant, searching the value list by
refresh token is the same as looking the token up in the map. -/
theorem find?_values_eq_lookup (t : String) :
    ∀ m : List (String × MAccount), KeyInv m →
      (m.map Prod.snd).find? (fun a => a.refreshToken = t) = m.lookup t := by
  intro m
  induction m with
  | nil => intro _; rfl
  | cons p rest ih =>
    intro hinv
    have hp : p.2.refreshToken = p.1 := hinv p (List.mem_cons_self p rest)
    have hrest : KeyInv rest := fun q hq => hinv q (List.mem_cons_of_mem p hq)
    simp only [List.map_cons]
    by_cases h : p.2.refreshToken = t
    · rw [List.find?_cons_of_pos _ (by simp [h])]
      rw [lookup_cons, if_pos (by rw [← hp, h])]
    · rw [List.find?_cons_of_neg _ (by simp [h])]
      rw [lookup_cons, if_neg (by rw [← hp]; exact fun hh => h hh.symm)]
      exact ih hrest

theorem lookup_eq_none_of_all_ne {α : Type} (m : List (String × α)) (k : String)
    (h : ∀ p ∈ m, p.1 ≠ k) : m.lookup k = none := by
  induction m with
  | nil => rfl
  | cons p rest ih =>
    rw [lookup_cons, if_neg (fun hh => h p (List.mem_cons_self p rest) hh.symm)]
    exact ih (fun q hq => h q (List.mem_cons_of_mem p hq))

/-- When every processed account has a token fresh to the accumulator
(and tokens are nonempty and pairwise distinct), the fold simply appends
the accounts in order. -/
theorem foldl_accPoolStep_append (f : List (String × MAccount) → MAccount → MAccount)
    (hf : ∀ m a, m.lookup a.refreshToken = none → f m a = a) :
    ∀ (l : List MAccount) (m : List (String × MAccount)),
      (∀ a ∈ l, a.refreshToken ≠ "") →
      (l.map (fun a => a.refreshToken)).Nodup →
      (∀ a ∈ l, m.lookup a.refreshToken = none) →
      l.foldl (accPoolStep f) m = m ++ l.map (fun a => (a.refreshToken, a)) := by
  intro l
  induction l with
  | nil => intro m _ _ _; simp
  | cons a rest ih =>
    intro m hne hnd hm
    simp only [List.map_cons, List.nodup_cons] at hnd
    obtain ⟨hna, hndr⟩ := hnd
    have hma : m.lookup a.refreshToken = none := hm a (List.mem_cons_self a rest)
    have hstep : accPoolStep f m a = m ++ [(a.refreshToken, a)] := by
      unfold accPoolStep
      rw [if_neg (hne a (List.mem_cons_self a rest))]
      rw [hf m a hma]
      unfold jsSet
      rw [if_neg (by simp [hma])]
    simp only [List.foldl_cons, hstep]
    rw [ih (m ++ [(a.refreshToken, a)])
      (fun b hb => hne b (List.mem_cons_of_mem a hb)) hndr ?hfresh]
    · simp
    case hfresh =>
      intro b hb
      rw [lookup_append]
      rw [hm b (List.mem_cons_of_mem a hb)]
      simp only [jsOr_none]
      rw [lookup_cons]
      rw [if_neg (fun hh => hna (by
        have hh2 : b.refreshToken = a.refreshToken := hh
        rw [← hh2]
        exact List.mem_map_of_mem _ hb))]
      rfl

/-- C7: the merge performed on save keys accounts by their refresh
token; for a matching identity the incoming account's present field
values win except that `lastUsed` becomes the maximum of both and
`rateLimitResetTimes` becomes the union of both maps (incoming winning
per key); and merging snapshots with disjoint accounts yields exactly
the concatenation — no account is lost. -/
theorem mergeAccountStorage_spec (existing incoming : MStorage)
    (hne1 : ∀ a ∈ existing.accounts, a.refreshToken ≠ "")
    (hnd1 : (existing.accounts.map (fun a => a.refreshToken)).Nodup)
    (hne2 : ∀ a ∈ incoming.accounts, a.refreshToken ≠ "")
    (hnd2 : (incoming.accounts.map (fun a => a.refreshToken)).Nodup) :
    (∀ t : String, t ≠ "" →
      (mergeAccountStorage existing incoming).accounts.find? (fun a => a.refreshToken = t) =
        (match existing.accounts.find? (fun a => a.refreshToken = t),
              incoming.accounts.find? (fun a => a.refreshToken = t) with
          | some e, some i => some (mergeAccount e i)
          | some e, none => some e
          | none, r => r)) ∧
    (∀ e i : MAccount,
      (mergeAccount e i).lastUsed = max e.lastUsed i.lastUsed ∧
      (∀ k, (mergeAccount e i).rateLimitResetTimes.lookup k =
        jsOr (i.rateLimitResetTimes.lookup k) (e.rateLimitResetTimes.lookup k)) ∧
      (mergeAccount e i).refreshToken = i.refreshToken ∧
      (mergeAccount e i).addedAt = i.addedAt ∧
      (∀ v, i.email = some v → (mergeAccount e i).email = some v) ∧
      (∀ v, i.enabled = some v → (mergeAccount e i).enabled = some v) ∧
      (∀ v, i.coolingDownUntil = some v → (mergeAccount e i).coolingDownUntil = some v) ∧
      (∀ v, i.cooldownReason = some v → (mergeAccount e i).cooldownReason = some v)) ∧
    ((∀ a ∈ existing.accounts, ∀ b ∈ incoming.accounts, a.refreshToken ≠ b.refreshToken) →
      (mergeAccountStorage existing incoming).accounts =
        existing.accounts ++ incoming.accounts) ∧
    (mergeAccountStorage existing incoming).activeIndex = incoming.activeIndex := by
  refine ⟨?_, ?_, ?_, rfl⟩
  · intro t ht
    show ((incoming.accounts.foldl (accPoolStep (fun m acc =>
        match m.lookup acc.refreshToken with
        | some existingAcc => mergeAccount existingAcc acc
        | none => acc))
        (existing.accounts.foldl (accPoolStep (fun _ acc => acc)) [])).map
          Prod.snd).find? (fun a => a.refreshToken = t) = _
    rw [find?_values_eq_lookup t _ (keyInv_foldl _ (fun m a => by
        cases m.lookup a.refreshToken <;> rfl) _ _
      (keyInv_foldl _ (fun _ _ => rfl) _ _ (fun p hp => absurd hp (List.not_mem_nil p))))]
    rw [mergeStorage_secondLoop_lookup t ht incoming.accounts _ hnd2]
    rw [mergeStorage_firstLoop_lookup t ht existing.accounts [] hnd1]
    cases existing.accounts.find? (fun a => a.refreshToken = t) <;>
      cases incoming.accounts.find? (fun a => a.refreshToken = t) <;> rfl
  · intro e i
    refine ⟨rfl, ?_, rfl, rfl, ?_, ?_, ?_, ?_⟩
    · intro k
      exact lookup_objUnion e.rateLimitResetTimes i.rateLimitResetTimes k
    all_goals intro v hv
    all_goals simp only [mergeAccount, hv, jsOr_some]
  · intro hdisj
    show ((incoming.accounts.foldl (accPoolStep (fun m acc =>
        match m.lookup acc.refreshToken with
        | some existingAcc => mergeAccount existingAcc acc
        | none => acc))
        (existing.accounts.foldl (accPoolStep (fun _ acc => acc)) [])).map
          Prod.snd) = _
    rw [foldl_accPoolStep_append _ (fun _ _ _ => rfl) existing.accounts [] hne1 hnd1
      (fun a _ => rfl)]
    rw [foldl_accPoolStep_append _ (fun m a hm => by rw [hm]) incoming.accounts _
      hne2 hnd2 ?hfresh]
    · simp only [List.nil_append, List.map_append, List.map_map]
      have hid : ∀ l : List MAccount,
          List.map (Prod.snd ∘ fun a => (a.refreshToken, a)) l = l := by
        intro l
        induction l with
        | nil => rfl
        | cons x rest ih => simp [ih]
      rw [hid, hid]
    case hfresh =>
      intro b hb
      simp only [List.nil_append]
      apply lookup_eq_none_of_all_ne
      intro p hp
      obtain ⟨a, ha, hap⟩ := List.mem_map.mp hp
      rw [← hap]
      exact hdisj a ha b hb

/-! ## Deduplication lemmas (C8, C9) -/

theorem newerAcc_irrefl (a : MAccount) : newerAcc a a = false := by
  simp [newerAcc]

/-- `newerAcc` is a strict lexicographic comparison: anything not newer
than the old champion is not newer than a strictly newer challenger. -/
theorem newerAcc_skip (x c z : MAccount) (h1 : newerAcc x c = false)
    (h2 : newerAcc z c = true) : newerAcc x z = false := by
  simp only [newerAcc, decide_eq_false_iff_not, decide_eq_true_eq] at h1 h2 ⊢
  omega

theorem lookup_mem {α : Type} (m : List (String × α)) (k : String) (v : α)
    (h : m.lookup k = some v) : (k, v) ∈ m := by
  induction m with
  | nil => cases h
  | cons p rest ih =>
    rw [lookup_cons] at h
    by_cases hk : k = p.1
    · rw [if_pos hk] at h
      injection h with h2
      subst h2
      subst hk
      simp
    · rw [if_neg hk] at h
      exact List.mem_cons_of_mem p (ih h)

theorem lookup_isSome_of_key_mem {α : Type} (m : List (String × α)) (k : String)
    (h : k ∈ m.map Prod.fst) : (m.lookup k).isSome := by
  induction m with
  | nil => simp at h
  | cons p rest ih =>
    rw [List.map_cons, List.mem_cons] at h
    rw [lookup_cons]
    by_cases hk : k = p.1
    · rw [if_pos hk]; rfl
    · rw [if_neg hk]
      rcases h with h | h
      · exact absurd h hk
      · exact ih h

theorem keysNodup_jsSet {α : Type} (m : List (String × α)) (k : String) (v : α)
    (h : (m.map Prod.fst).Nodup) : ((jsSet m k v).map Prod.fst).Nodup := by
  unfold jsSet
  by_cases hs : (m.lookup k).isSome
  · rw [if_pos hs]
    have heq : (m.map (fun p => if p.1 = k then (k, v) else p)).map Prod.fst =
        m.map Prod.fst := by
      rw [List.map_map]
      apply List.map_congr_left
      intro p _
      by_cases hk : p.1 = k
      · simp [hk]
      · simp [hk]
    rw [heq]
    exact h
  · rw [if_neg hs]
    rw [List.map_append]
    apply List.Nodup.append h (by simp)
    intro x hx hx2
    simp only [List.map_cons, List.map_nil, List.mem_singleton] at hx2
    subst hx2
    exact hs (lookup_isSome_of_key_mem m x hx)

theorem lookup_of_mem_keysNodup {α : Type} (m : List (String × α)) (k : String) (v : α)
    (hnd : (m.map Prod.fst).Nodup) (hmem : (k, v) ∈ m) : m.lookup k = some v := by
  induction m with
  | nil => simp at hmem
  | cons p rest ih =>
    rw [List.map_cons, List.nodup_cons] at hnd
    obtain ⟨hnp, hndr⟩ := hnd
    rw [List.mem_cons] at hmem
    rw [lookup_cons]
    rcases hmem with h | h
    · have h1 : k = p.1 := by rw [← h]
      have h2 : v = p.2 := by rw [← h]
      rw [if_pos h1, h2]
    · by_cases hk : k = p.1
      · exfalso
        apply hnp
        rw [← hk]
        exact List.mem_map_of_mem Prod.fst h
      · rw [if_neg hk]
        exact ih hndr h

theorem keysNonempty_jsSet {α : Type} (m : List (String × α)) (k : String) (v : α)
    (hk : k ≠ "") (hm : ∀ p ∈ m, p.1 ≠ "") : ∀ p ∈ jsSet m k v, p.1 ≠ "" := by
  unfold jsSet
  by_cases hs : (m.lookup k).isSome
  · rw [if_pos hs]
    intro p hp
    obtain ⟨q, hq, hqp⟩ := List.mem_map.mp hp
    by_cases hqk : q.1 = k
    · rw [if_pos hqk] at hqp
      subst hqp
      exact hk
    · rw [if_neg hqk] at hqp
      subst hqp
      exact hm q hq
  · rw [if_neg hs]
    intro p hp
    rcases List.mem_append.mp hp with h | h
    · exact hm p h
    · simp only [List.mem_singleton] at h
      subst h
      exact hk

/-- Invariant of the first dedup loop: the `emailToNewestIndex` map has
distinct, nonempty keys, each stored index points at a processed account
with that email which is maximal (under `isNewer`) among all processed
accounts with the same email, and every processed nonempty email is
covered (falsy-email entries never touch the map). -/
structure DedupInv (accounts : List MAccount) (processed : List (Nat × MAccount))
    (m : List (String × Nat)) : Prop where
  keysNodup : (m.map Prod.fst).Nodup
  keysNonempty : ∀ p ∈ m, p.1 ≠ ""
  champ : ∀ e j, m.lookup e = some j →
    ∃ b, accounts[j]? = some b ∧ b.email = some e ∧ (j, b) ∈ processed ∧
      ∀ p ∈ processed, p.2.email = some e → newerAcc p.2 b = false
  covered : ∀ p ∈ processed, ∀ e, e ≠ "" → p.2.email = some e → (m.lookup e).isSome

theorem dedupPass_inv (accounts : List MAccount) :
    ∀ (todo processed : List (Nat × MAccount)) (m : List (String × Nat)),
      (∀ p ∈ todo, accounts[p.1]? = some p.2) →
      DedupInv accounts processed m →
      DedupInv accounts (processed ++ todo) (dedupPass accounts todo m) := by
  intro todo
  induction todo with
  | nil =>
    intro processed m _ hinv
    simpa [dedupPass] using hinv
  | cons pa rest ih =>
    obtain ⟨i, a⟩ := pa
    intro processed m htodo hinv
    have htodo_rest : ∀ p ∈ rest, accounts[p.1]? = some p.2 :=
      fun p hp => htodo p (List.mem_cons_of_mem _ hp)
    have hia : accounts[i]? = some a := htodo (i, a) (List.mem_cons_self _ _)
    have hsplit : processed ++ (i, a) :: rest = (processed ++ [(i, a)]) ++ rest := by simp
    rw [hsplit]
    cases hea : a.email with
    | none =>
      have hstep : dedupPass accounts ((i, a) :: rest) m = dedupPass accounts rest m := by
        simp only [dedupPass, hea]
      rw [hstep]
      apply ih _ _ htodo_rest
      refine ⟨hinv.keysNodup, hinv.keysNonempty, ?_, ?_⟩
      · intro e j hj
        obtain ⟨b, hb1, hb2, hb3, hb4⟩ := hinv.champ e j hj
        refine ⟨b, hb1, hb2, List.mem_append_left _ hb3, ?_⟩
        intro p hp hpe
        rcases List.mem_append.mp hp with h | h
        · exact hb4 p h hpe
        · simp only [List.mem_singleton] at h
          subst h
          simp only at hpe
          rw [hea] at hpe
          cases hpe
      · intro p hp e he hpe
        rcases List.mem_append.mp hp with h | h
        · exact hinv.covered p h e he hpe
        · simp only [List.mem_singleton] at h
          subst h
          simp only at hpe
          rw [hea] at hpe
          cases hpe
    | some e =>
      by_cases hee : e = ""
      · subst hee
        have hstep : dedupPass accounts ((i, a) :: rest) m =
            dedupPass accounts rest m := by
          simp [dedupPass, hea]
        rw [hstep]
        apply ih _ _ htodo_rest
        refine ⟨hinv.keysNodup, hinv.keysNonempty, ?_, ?_⟩
        · intro e2 j hj
          have he2 : e2 ≠ "" := hinv.keysNonempty (e2, j) (lookup_mem _ _ _ hj)
          obtain ⟨b, hb1, hb2, hb3, hb4⟩ := hinv.champ e2 j hj
          refine ⟨b, hb1, hb2, List.mem_append_left _ hb3, ?_⟩
          intro p hp hpe
          rcases List.mem_append.mp hp with h | h
          · exact hb4 p h hpe
          · simp only [List.mem_singleton] at h
            subst h
            simp only at hpe
            rw [hea] at hpe
            injection hpe with hpe2
            exact absurd hpe2.symm he2
        · intro p hp e2 he2 hpe
          rcases List.mem_append.mp hp with h | h
          · exact hinv.covered p h e2 he2 hpe
          · simp only [List.mem_singleton] at h
            subst h
            simp only at hpe
            rw [hea] at hpe
            injection hpe with hpe2
            exact absurd hpe2.symm he2
      · cases hml : m.lookup e with
        | none =>
          have hstep : dedupPass accounts ((i, a) :: rest) m =
              dedupPass accounts rest (jsSet m e i) := by
            simp only [dedupPass, hea, if_neg hee, hml]
          rw [hstep]
          apply ih _ _ htodo_rest
          refine ⟨keysNodup_jsSet m e i hinv.keysNodup,
            keysNonempty_jsSet m e i hee hinv.keysNonempty, ?_, ?_⟩
          · intro e2 j hj
            by_cases he2 : e2 = e
            · subst he2
              rw [lookup_jsSet_self] at hj
              injection hj with hj2
              subst hj2
              refine ⟨a, hia, hea, List.mem_append_right _ (by simp), ?_⟩
              intro p hp hpe
              rcases List.mem_append.mp hp with h | h
              · exfalso
                have := hinv.covered p h e2 hee hpe
                rw [hml] at this
                cases this
              · simp only [List.mem_singleton] at h
                subst h
                exact newerAcc_irrefl a
            · rw [lookup_jsSet_ne _ _ _ _ he2] at hj
              obtain ⟨b, hb1, hb2, hb3, hb4⟩ := hinv.champ e2 j hj
              refine ⟨b, hb1, hb2, List.mem_append_left _ hb3, ?_⟩
              intro p hp hpe
              rcases List.mem_append.mp hp with h | h
              · exact hb4 p h hpe
              · simp only [List.mem_singleton] at h
                subst h
                simp only at hpe
                rw [hea] at hpe
                injection hpe with hpe2
                exact absurd hpe2.symm he2
          · intro p hp e2 he2 hpe
            rcases List.mem_append.mp hp with h | h
            · have hold := hinv.covered p h e2 he2 hpe
              by_cases heq : e2 = e
              · subst heq
                rw [lookup_jsSet_self]
                rfl
              · rw [lookup_jsSet_ne _ _ _ _ heq]
                exact hold
            · simp only [List.mem_singleton] at h
              subst h
              simp only at hpe
              rw [hea] at hpe
              injection hpe with hpe2
              subst hpe2
              rw [lookup_jsSet_self]
              rfl
        | some j =>
          obtain ⟨b, hb1, hb2, hb3, hb4⟩ := hinv.champ e j hml
          cases hnew : newerAcc a b with
          | true =>
            have hstep : dedupPass accounts ((i, a) :: rest) m =
                dedupPass accounts rest (jsSet m e i) := by
              simp only [dedupPass, hea, if_neg hee, hml, hb1, hnew, if_true]
            rw [hstep]
            apply ih _ _ htodo_rest
            refine ⟨keysNodup_jsSet m e i hinv.keysNodup,
              keysNonempty_jsSet m e i hee hinv.keysNonempty, ?_, ?_⟩
            · intro e2 j2 hj
              by_cases he2 : e2 = e
              · subst he2
                rw [lookup_jsSet_self] at hj
                injection hj with hj2
                subst hj2
                refine ⟨a, hia, hea, List.mem_append_right _ (by simp), ?_⟩
                intro p hp hpe
                rcases List.mem_append.mp hp with h | h
                · exact newerAcc_skip p.2 b a (hb4 p h hpe) hnew
                · simp only [List.mem_singleton] at h
                  subst h
                  exact newerAcc_irrefl a
              · rw [lookup_jsSet_ne _ _ _ _ he2] at hj
                obtain ⟨b2, hc1, hc2, hc3, hc4⟩ := hinv.champ e2 j2 hj
                refine ⟨b2, hc1, hc2, List.mem_append_left _ hc3, ?_⟩
                intro p hp hpe
                rcases List.mem_append.mp hp with h | h
                · exact hc4 p h hpe
                · simp only [List.mem_singleton] at h
                  subst h
                  simp only at hpe
                  rw [hea] at hpe
                  injection hpe with hpe2
                  exact absurd hpe2.symm he2
            · intro p hp e2 he2 hpe
              rcases List.mem_append.mp hp with h | h
              · have hold := hinv.covered p h e2 he2 hpe
                by_cases heq : e2 = e
                · subst heq
                  rw [lookup_jsSet_self]
                  rfl
                · rw [lookup_jsSet_ne _ _ _ _ heq]
                  exact hold
              · simp only [List.mem_singleton] at h
                subst h
                simp only at hpe
                rw [hea] at hpe
                injection hpe with hpe2
                subst hpe2
                rw [lookup_jsSet_self]
                rfl
          | false =>
            have hstep : dedupPass accounts ((i, a) :: rest) m =
                dedupPass accounts rest m := by
              simp only [dedupPass, hea, if_neg hee, hml, hb1, hnew,
                Bool.false_eq_true, if_false]
            rw [hstep]
            apply ih _ _ htodo_rest
            refine ⟨hinv.keysNodup, hinv.keysNonempty, ?_, ?_⟩
            · intro e2 j2 hj
              obtain ⟨b2, hc1, hc2, hc3, hc4⟩ := hinv.champ e2 j2 hj
              refine ⟨b2, hc1, hc2, List.mem_append_left _ hc3, ?_⟩
              intro p hp hpe
              rcases List.mem_append.mp hp with h | h
              · exact hc4 p h hpe
              · simp only [List.mem_singleton] at h
                subst h
                simp only at hpe
                rw [hea] at hpe
                injection hpe with hpe2
                subst hpe2
                have hj2 : j2 = j := by
                  rw [hml] at hj
                  injection hj with hj3
                  exact hj3.symm
                subst hj2
                have hb2eq : b2 = b := by
                  rw [hb1] at hc1
                  injection hc1 with hc5
                  exact hc5.symm
                subst hb2eq
                exact hnew
            · intro p hp e2 he2 hpe
              rcases List.mem_append.mp hp with h | h
              · exact hinv.covered p h e2 he2 hpe
              · simp only [List.mem_singleton] at h
                subst h
                simp only at hpe
                rw [hea] at hpe
                injection hpe with hpe2
                subst hpe2
                rw [hml]
                rfl

/-- The invariant at the end of the first dedup loop. -/
theorem dedup_inv_final (accounts : List MAccount) :
    DedupInv accounts accounts.enum (dedupPass accounts accounts.enum []) := by
  have base : DedupInv accounts [] [] := by
    refine ⟨by simp, ?_, ?_, ?_⟩
    · intro p hp
      cases hp
    · intro e j hj
      cases hj
    · intro p hp
      cases hp
  have htodo : ∀ p ∈ accounts.enum, accounts[p.1]? = some p.2 := by
    intro p hp
    obtain ⟨i, x⟩ := p
    exact List.mk_mem_enum_iff_getElem?.mp hp
  simpa using dedupPass_inv accounts accounts.enum [] [] htodo base

theorem length_le_one_of_nodup_allEq {α : Type} (L : List α) (hnd : L.Nodup)
    (h : ∀ x ∈ L, ∀ y ∈ L, x = y) : L.length ≤ 1 := by
  cases L with
  | nil => simp
  | cons x rest =>
    cases rest with
    | nil => simp
    | cons y rest2 =>
      exfalso
      have hxy := h x (by simp) y (by simp)
      rw [List.nodup_cons] at hnd
      apply hnd.1
      rw [hxy]
      exact List.mem_cons_self y rest2

/-- Whatever dedup keeps was an input account. -/
theorem dedup_subset (accounts : List MAccount) (b : MAccount)
    (hb : b ∈ deduplicateAccountsByEmail accounts) : b ∈ accounts := by
  simp only [deduplicateAccountsByEmail] at hb
  obtain ⟨p, hp, hps⟩ := List.mem_map.mp hb
  have hpe := (List.mem_filter.mp hp).1
  obtain ⟨i, x⟩ := p
  have hx := List.mk_mem_enum_iff_getElem?.mp hpe
  simp only at hps
  subst hps
  exact List.mem_iff_getElem?.mpr ⟨i, hx⟩

/-- A kept email-bearing entry is exactly the index stored in the
`emailToNewestIndex` map for its email. -/
theorem dedup_kept_lookup (accounts : List MAccount) (e : String) (p : Nat × MAccount)
    (hmem : p ∈ accounts.enum)
    (hkeep : p.1 ∈ (dedupPass accounts accounts.enum []).map Prod.snd)
    (hpe : p.2.email = some e) :
    (dedupPass accounts accounts.enum []).lookup e = some p.1 := by
  have hinv := dedup_inv_final accounts
  obtain ⟨q, hq, hq2⟩ := List.mem_map.mp hkeep
  have hq' : (q.1, q.2) ∈ dedupPass accounts accounts.enum [] := by simpa using hq
  have hlq : (dedupPass accounts accounts.enum []).lookup q.1 = some q.2 :=
    lookup_of_mem_keysNodup _ _ _ hinv.keysNodup hq'
  obtain ⟨b, hb1, hb2, hb3, hb4⟩ := hinv.champ q.1 q.2 hlq
  have hpacc : accounts[p.1]? = some p.2 := by
    obtain ⟨i, x⟩ := p
    exact List.mk_mem_enum_iff_getElem?.mp hmem
  rw [hq2] at hb1
  rw [hpacc] at hb1
  injection hb1 with hb5
  rw [← hb5] at hb2
  rw [hpe] at hb2
  injection hb2 with hb6
  rw [hb6, hlq, hq2]

/-- At most one account per nonempty email survives deduplication. -/
theorem dedup_email_atMostOne (accounts : List MAccount) (e : String) (he : e ≠ "") :
    ((deduplicateAccountsByEmail accounts).filter
      (fun a => a.email = some e)).length ≤ 1 := by
  simp only [deduplicateAccountsByEmail]
  rw [List.filter_map, List.length_map]
  apply length_le_one_of_nodup_allEq
  · exact List.Nodup.filter _ (List.Nodup.filter _
      (List.Nodup.of_map _ (List.nodup_enum_map_fst accounts)))
  · intro x hx y hy
    have hx1 := List.mem_filter.mp hx
    have hx2 := List.mem_filter.mp hx1.1
    have hy1 := List.mem_filter.mp hy
    have hy2 := List.mem_filter.mp hy1.1
    have hxe : x.2.email = some e := by
      have hc := hx1.2
      simp only [Function.comp, decide_eq_true_eq] at hc
      exact hc
    have hye : y.2.email = some e := by
      have hc := hy1.2
      simp only [Function.comp, decide_eq_true_eq] at hc
      exact hc
    have hxk : x.1 ∈ (dedupPass accounts accounts.enum []).map Prod.snd := by
      have hc := hx2.2
      simp only [hxe, emailFalsy, decide_eq_false he, Bool.false_or] at hc
      simpa using hc
    have hyk : y.1 ∈ (dedupPass accounts accounts.enum []).map Prod.snd := by
      have hc := hy2.2
      simp only [hye, emailFalsy, decide_eq_false he, Bool.false_or] at hc
      simpa using hc
    have h1 := dedup_kept_lookup accounts e x hx2.1 hxk hxe
    have h2 := dedup_kept_lookup accounts e y hy2.1 hyk hye
    rw [h1] at h2
    injection h2 with hfst
    have hxacc : accounts[x.1]? = some x.2 := by
      obtain ⟨i, v⟩ := x
      exact List.mk_mem_enum_iff_getElem?.mp hx2.1
    have hyacc : accounts[y.1]? = some y.2 := by
      obtain ⟨i, v⟩ := y
      exact List.mk_mem_enum_iff_getElem?.mp hy2.1
    rw [hfst] at hxacc
    rw [hyacc] at hxacc
    injection hxacc with hsnd
    obtain ⟨x1, x2⟩ := x
    obtain ⟨y1, y2⟩ := y
    simp only at hfst hsnd
    rw [hfst, hsnd]

/-- For every nonempty email present in the input, dedup keeps an
account with that email that no input account with the same email is
strictly newer than (greater `lastUsed`, ties by greater `addedAt`). -/
theorem dedup_champion (accounts : List MAccount) (e : String) (he : e ≠ "")
    (a0 : MAccount) (ha0 : a0 ∈ accounts) (he0 : a0.email = some e) :
    ∃ b ∈ deduplicateAccountsByEmail accounts, b.email = some e ∧
      ∀ a ∈ accounts, a.email = some e → newerAcc a b = false := by
  have hinv := dedup_inv_final accounts
  obtain ⟨i0, hi0⟩ := List.mem_iff_getElem?.mp ha0
  have hp0 : (i0, a0) ∈ accounts.enum := List.mk_mem_enum_iff_getElem?.mpr hi0
  have hsome := hinv.covered (i0, a0) hp0 e he he0
  obtain ⟨j, hj⟩ := Option.isSome_iff_exists.mp hsome
  obtain ⟨b, hb1, hb2, hb3, hb4⟩ := hinv.champ e j hj
  refine ⟨b, ?_, hb2, ?_⟩
  · simp only [deduplicateAccountsByEmail]
    apply List.mem_map.mpr
    refine ⟨(j, b), ?_, rfl⟩
    apply List.mem_filter.mpr
    refine ⟨hb3, ?_⟩
    have hjm : (e, j) ∈ dedupPass accounts accounts.enum [] := lookup_mem _ _ _ hj
    have hjmem : j ∈ (dedupPass accounts accounts.enum []).map Prod.snd :=
      List.mem_map.mpr ⟨(e, j), hjm, rfl⟩
    simp [emailFalsy, hb2, hjmem]
  · intro a ha hae
    obtain ⟨i, hi⟩ := List.mem_iff_getElem?.mp ha
    exact hb4 (i, a) (List.mk_mem_enum_iff_getElem?.mpr hi) hae

/-- Two accounts with the same nonempty email and different `lastUsed`
collapse, in either order, to the one with the greater `lastUsed`. -/
theorem dedup_pair (a b : MAccount) (e : String) (he : e ≠ "")
    (ha : a.email = some e) (hb : b.email = some e) (hlt : a.lastUsed < b.lastUsed) :
    deduplicateAccountsByEmail [a, b] = [b] ∧
    deduplicateAccountsByEmail [b, a] = [b] := by
  have hnewer : newerAcc b a = true := by
    simp only [newerAcc, decide_eq_true_eq]
    exact Or.inl hlt
  have hnewer2 : newerAcc a b = false := by
    simp only [newerAcc, decide_eq_false_iff_not]
    omega
  constructor
  · simp [deduplicateAccountsByEmail, dedupPass, jsSet, emailFalsy, ha, hb, he, hnewer,
      List.enum, List.enumFrom]
  · simp [deduplicateAccountsByEmail, dedupPass, jsSet, emailFalsy, ha, hb, he, hnewer2,
      List.enum, List.enumFrom]

/-- Every falsy-email (missing or empty-string) account is kept. -/
theorem dedup_keeps_falsy_email (accounts : List MAccount) (a : MAccount)
    (ha : a ∈ accounts) (hf : emailFalsy a.email = true) :
    a ∈ deduplicateAccountsByEmail accounts := by
  obtain ⟨i, hi⟩ := List.mem_iff_getElem?.mp ha
  simp only [deduplicateAccountsByEmail]
  apply List.mem_map.mpr
  refine ⟨(i, a), ?_, rfl⟩
  apply List.mem_filter.mpr
  refine ⟨List.mk_mem_enum_iff_getElem?.mpr hi, ?_⟩
  simp [hf]

/-- C8 counterexample input: the older of two accounts sharing the
empty-string email. -/
def c8EmptyOld : MAccount := ⟨some "", "t1", 1, 5, none, [], none, none⟩

/-- C8 counterexample input: the newer of two accounts sharing the
empty-string email. -/
def c8EmptyNew : MAccount := ⟨some "", "t2", 3, 9, none, [], none, none⟩

/-- C8 counterexample: two accounts sharing the empty-string email
value, with different `lastUsed`, do not collapse — `!acc.email` treats
an empty-string email as falsy (no identity) and keeps both entries
unconditionally, contradicting the claim's universal collapse. -/
theorem dedup_empty_email_kept_both :
    deduplicateAccountsByEmail [c8EmptyOld, c8EmptyNew] = [c8EmptyOld, c8EmptyNew] := by
  decide

/-- C8 (amended): for every nonempty email, deduplication keeps at most
one account with that email; it keeps an input account with that email
that no input account with the same email beats on (`lastUsed`, then
`addedAt`); two accounts sharing a nonempty email with different
`lastUsed` collapse (in either order) to the one with the greater
`lastUsed`; and every account whose email is missing or the empty
string (JS-falsy) is kept unconditionally. -/
theorem dedup_collapses_by_email (accounts : List MAccount) :
    (∀ e : String, e ≠ "" →
      ((deduplicateAccountsByEmail accounts).filter
        (fun a => a.email = some e)).length ≤ 1) ∧
    (∀ e : String, e ≠ "" → ∀ a0 ∈ accounts, a0.email = some e →
      ∃ b ∈ deduplicateAccountsByEmail accounts, b.email = some e ∧
        ∀ a ∈ accounts, a.email = some e → newerAcc a b = false) ∧
    (∀ a b : MAccount, ∀ e : String, e ≠ "" → a.email = some e → b.email = some e →
      a.lastUsed < b.lastUsed →
      deduplicateAccountsByEmail [a, b] = [b] ∧
      deduplicateAccountsByEmail [b, a] = [b]) ∧
    (∀ a ∈ accounts, emailFalsy a.email = true → a ∈ deduplicateAccountsByEmail accounts) :=
  ⟨fun e he => dedup_email_atMostOne accounts e he,
   fun e he a0 ha0 he0 => dedup_champion accounts e he a0 ha0 he0,
   fun a b e he ha hb hlt => dedup_pair a b e he ha hb hlt,
   fun a ha hf => dedup_keeps_falsy_email accounts a ha hf⟩

/-- Older duplicate account for the C8 witness. -/
def c8AccOld : MAccount := ⟨some "u", "t1", 1, 5, none, [], none, none⟩

/-- Newer duplicate account for the C8 witness. -/
def c8AccNew : MAccount := ⟨some "u", "t2", 3, 9, none, [], none, none⟩

/-- Witness for the amended C8: the concrete two-account collapse on a
nonempty email. -/
theorem dedup_collapses_by_email_witness :
    deduplicateAccountsByEmail [c8AccOld, c8AccNew] = [c8AccNew] :=
  ((dedup_collapses_by_email [c8AccOld, c8AccNew]).2.2.1 c8AccOld c8AccNew "u"
    (by decide) rfl rfl (by decide)).1

/-- C9 (amended): every storage a successful load returns satisfies the
pool invariant — the active index is 0 on an empty pool and otherwise
within [0, length), every returned account comes from a raw entry that
passed the string-refresh-token validity filter, and no two returned
accounts share a nonempty email (accounts whose email is missing or the
empty string are all kept, so uniqueness does not extend to them). -/
theorem loadAccounts_invariant (raw : RawStorage) (st : MStorage)
    (h : loadAccountsModel raw = some st) :
    (st.accounts = [] → st.activeIndex = 0) ∧
    (st.accounts ≠ [] → 0 ≤ st.activeIndex ∧ st.activeIndex < st.accounts.length) ∧
    (∀ a ∈ st.accounts, RawAccount.valid a ∈ raw.accounts) ∧
    (∀ e : String, e ≠ "" →
      (st.accounts.filter (fun a => a.email = some e)).length ≤ 1) := by
  unfold loadAccountsModel at h
  by_cases h1 : (!raw.accountsIsArray) = true
  · rw [if_pos h1] at h
    cases h
  rw [if_neg h1] at h
  by_cases h2 : raw.version ≠ some 1
  · rw [if_pos h2] at h
    cases h
  rw [if_neg h2] at h
  simp only [] at h
  injection h with h3
  subst h3
  refine ⟨?_, ?_, ?_, ?_⟩
  · intro hempty
    simp only [] at hempty ⊢
    rw [hempty]
    simp [hempty]
  · intro hne
    simp only [] at hne ⊢
    have hpos : 0 < (deduplicateAccountsByEmail (validEntries raw.accounts)).length :=
      List.length_pos.mpr hne
    rw [if_pos hpos]
    omega
  · intro a ha
    simp only [] at ha
    have hv := dedup_subset _ a ha
    obtain ⟨r, hr, hreq⟩ := List.mem_filterMap.mp hv
    cases r with
    | invalid => cases hreq
    | valid a2 =>
      simp only [] at hreq
      injection hreq with hreq2
      subst hreq2
      exact hr
  · intro e he
    exact dedup_email_atMostOne _ e he

/-- C9 counterexample input: a well-formed stored file with two valid
accounts that both carry the empty-string email. -/
def c9RawDup : RawStorage :=
  ⟨true, [RawAccount.valid ⟨some "", "ta", 1, 5, none, [], none, none⟩,
          RawAccount.valid ⟨some "", "tb", 2, 9, none, [], none, none⟩], some 1, some 0, none⟩

/-- The storage `loadAccountsModel` returns for `c9RawDup`. -/
def c9DupSt : MStorage :=
  ⟨1, [⟨some "", "ta", 1, 5, none, [], none, none⟩,
       ⟨some "", "tb", 2, 9, none, [], none, none⟩], 0, none⟩

/-- C9 counterexample: a successful load returns two accounts sharing
the empty-string email — `!acc.email` treats it as "no identity" and
keeps both, so identity uniqueness does not hold for every email
value as the claim states. -/
theorem loadAccounts_keeps_empty_email_duplicates :
    loadAccountsModel c9RawDup = some c9DupSt ∧
    (c9DupSt.accounts.filter (fun a => a.email = some "")).length = 2 := by
  decide

/-- Raw parsed storage for the C9 witness: one valid account, an
out-of-range stored active index (7). -/
def c9Raw : RawStorage :=
  ⟨true, [RawAccount.valid ⟨some "u", "tok", 1, 2, none, [], none, none⟩], some 1, some 7, none⟩

/-- The storage the model returns for `c9Raw` (index clamped to 0). -/
def c9St : MStorage := ⟨1, [⟨some "u", "tok", 1, 2, none, [], none, none⟩], 0, none⟩

/-- Witness for C9: the load clamps the active index into range. -/
theorem loadAccounts_invariant_witness :
    0 ≤ c9St.activeIndex ∧ c9St.activeIndex < c9St.accounts.length :=
  (loadAccounts_invariant c9Raw c9St (by decide)).2.1 (by decide)

/-- Witness account for C7 (existing side). -/
def c7AccA : MAccount := ⟨some "u1", "tokA", 1, 10, some true, [("kimi", 5)], none, none⟩

/-- Witness account for C7 (incoming side, distinct identity). -/
def c7AccB : MAccount := ⟨some "u2", "tokB", 2, 20, some true, [("kimi", 7)], none, none⟩

/-- Witness for C7: merging snapshots with disjoint accounts is exactly
their concatenation. -/
theorem mergeAccountStorage_spec_witness :
    (mergeAccountStorage ⟨1, [c7AccA], 0, none⟩ ⟨1, [c7AccB], 0, none⟩).accounts =
      [c7AccA, c7AccB] :=
  (mergeAccountStorage_spec ⟨1, [c7AccA], 0, none⟩ ⟨1, [c7AccB], 0, none⟩
    (by decide) (by decide) (by decide) (by decide)).2.2.1 (by decide)

/-- Witness for the amended C3: consumed token refunded on a 429. -/
theorem consumedToken_refunded_witness :
    Effect.refundToken 0 ∈
      (dispatchStep ⟨300000, Strategy.hybrid, 0⟩ true ⟨0, false, some 0⟩
        ⟨false, some 0, 0, false, RefreshOutcome.noResult, true, 0, true,
          SendOutcome.response 429 ⟨none, false⟩ "RATE_LIMIT_EXCEEDED",
          RefreshOutcome.noResult, 0⟩).2 ∧
    Effect.send ∈
      (dispatchStep ⟨300000, Strategy.hybrid, 0⟩ true ⟨0, false, some 0⟩
        ⟨false, some 0, 0, false, RefreshOutcome.noResult, true, 0, true,
          SendOutcome.response 429 ⟨none, false⟩ "RATE_LIMIT_EXCEEDED",
          RefreshOutcome.noResult, 0⟩).2 :=
  consumedToken_refunded_in_refunding_branches _ true _ _ 0 rfl rfl
    (by intro e h; cases h) rfl rfl rfl
    (Or.inr (Or.inl ⟨429, ⟨none, false⟩, "RATE_LIMIT_EXCEEDED", rfl, Or.inl rfl⟩))

end Kimicode
